import Mathlib

/-!
Verification development for the Action Relation Ledger of the `lava` node
(`src/actiondb.cpp`, `src/ticket.cpp`, `src/primitives/transaction.h`).

The C++ state lives in three `std::map`s of `CRelationView`
(`relationTip`, `relationKeyIDTip`, `relationsHistoryMap`).  `std::map`
equality compares the ordered sequence of key/value pairs, so each map is
embedded as an association list strictly sorted by key; the well-formedness
predicate `SMap.WF` states that sortedness, and structural equality of
states is list equality.  160-bit identity hashes (`CKeyID`) are embedded as
`Nat` (the null id `CKeyID()` is `0`); 64-bit plot ids as `Nat`; block
heights (C++ `int`) as `Int`; byte strings as `List Nat`.
-/

/-- Sorted-association-list model of `std::map` lookup (`find`). -/
def SMap.lookup {K V : Type} [DecidableEq K] : List (K × V) → K → Option V
  | [], _ => none
  | e :: t, k => if e.1 = k then some e.2 else SMap.lookup t k

/-- Sorted-association-list model of `std::map` insertion (`operator[]=`):
keeps the list strictly sorted by key, replacing an existing binding. -/
def SMap.insert {K V : Type} [LinearOrder K] : List (K × V) → K → V → List (K × V)
  | [], k, v => [(k, v)]
  | e :: t, k, v =>
    if k < e.1 then (k, v) :: e :: t
    else if k = e.1 then (k, v) :: t
    else e :: SMap.insert t k v

/-- Sorted-association-list model of `std::map::erase` by key. -/
def SMap.erase {K V : Type} [DecidableEq K] : List (K × V) → K → List (K × V)
  | [], _ => []
  | e :: t, k => if e.1 = k then t else e :: SMap.erase t k

/-- Well-formedness: keys strictly increasing (the `std::map` invariant). -/
abbrev SMap.WF {K V : Type} [LinearOrder K] (l : List (K × V)) : Prop :=
  l.Pairwise (fun a b => a.1 < b.1)


/-! ## Actions (`actiondb.h` / `actiondb.cpp`)

`CAction` is `boost::variant<CNilAction, CBindAction, CUnbindAction>`:
`which()` is 0 for `CNilAction`, 1 for `CBindAction` (a pair of `CKeyID`s,
fields `.first`/`.second`), 2 for `CUnbindAction` (a single `CKeyID`).
Identities are embedded as `Nat`; the null id `CKeyID()` is `0`. -/
inductive CAction where
  | nil : CAction
  | bind : Nat → Nat → CAction
  | unbind : Nat → CAction
deriving DecidableEq

/-- The null identity `CKeyID()` (the all-zero 160-bit hash). -/
def nullKeyID : Nat := 0

/-! ## Transactions (`primitives/transaction.h`)

Only the parts `DecodeAction`/`ConnectBlock` read are modelled: the
previous outpoints of the inputs, and value plus script of the outputs.
`GetHash` is external hashing, modelled as a stored field. -/

/-- `COutPoint`: transaction hash (as `Nat`) and output index `n`. -/
abbrev COutPoint := Nat × Nat

/-- The null outpoint `COutPoint()`: null hash and `n = NULL_INDEX = 2^32-1`. -/
def nullOutPoint : COutPoint := (0, 4294967295)

/-- `CTxOut`: `nValue` (`CAmount`, an `int64`, embedded as `Int` — the model
does not reproduce two's-complement wraparound) and `scriptPubKey` as a byte
list. -/
structure CTxOut where
  nValue : Int
  scriptPubKey : List Nat
deriving DecidableEq

/-- The slice of `CTransaction` that the action-ledger code reads.  `vin` is
the list of previous outpoints (`CTxIn::prevout`); `txid` models the cached
`GetHash()` value. -/
structure CTx where
  txid : Nat
  vin : List COutPoint
  vout : List CTxOut
deriving DecidableEq

/-- `CTransaction::IsCoinBase`: single input whose prevout is null. -/
def CTx.IsCoinBase (tx : CTx) : Bool :=
  tx.vin.length = 1 && tx.vin.headD nullOutPoint = nullOutPoint

/-- `CTransaction::IsNull`: no inputs and no outputs. -/
def CTx.IsNull (tx : CTx) : Bool :=
  tx.vin.isEmpty && tx.vout.isEmpty

/-- `CTransaction::GetValueOut`: sum of output values. -/
def CTx.GetValueOut (tx : CTx) : Int :=
  (tx.vout.map CTxOut.nValue).sum

/-! ## The relation ledger state (`CRelationView`)

`relationTip : std::map<uint64_t, uint64_t>` (plot id → plot id, legacy),
`relationKeyIDTip : std::map<CKeyID, CKeyID>`,
`relationsHistoryMap : std::map<CKeyID, std::map<int, CKeyID>>`.

The `CKeyID::GetPlotID` derivation is not part of this repository; per the
spec it is an opaque deterministic numeric derivation from an identity, so
the operations are parametrised by a function `plotid : Nat → Nat`.

The underlying `CDBWrapper` store is external; batch writes are modelled by
a boolean oracle `writeOk` giving the result of `WriteBatch`/`Write`
(memory mutations in the source happen before the batch is submitted and
are not rolled back on failure, which the model reproduces). -/
structure CRelationView where
  relationTip : List (Nat × Nat)
  relationKeyIDTip : List (Nat × Nat)
  relationsHistoryMap : List (Nat × List (Int × Nat))
deriving DecidableEq

/-- The per-identity history list (`CPersonalRelationHistoryList`,
`std::map<int, CKeyID>`), defaulting to empty when absent. -/
def histOf (s : CRelationView) (f : Nat) : List (Int × Nat) :=
  (SMap.lookup s.relationsHistoryMap f).getD []

/-- `CRelationView::addRelationHistory` (actiondb.cpp:145-155): copy the
identity's history list (empty if absent), set `list[height] = to`, store it
back. -/
def CRelationView.addRelationHistory (s : CRelationView) (height : Int)
    (f t : Nat) : CRelationView :=
  let personalRelationList := (SMap.lookup s.relationsHistoryMap f).getD []
  { s with relationsHistoryMap := (SMap.insert s.relationsHistoryMap f
      (SMap.insert personalRelationList height t)) }

/-- `CRelationView::AcceptAction` (actiondb.cpp:157-198).  Returns the
`WriteBatch` result, the mutated in-memory state, and the
`CRelationActive` entries appended to the caller's `relations` vector
(`(txid, (from, to))`, with `to = CKeyID() = 0` for an unbind).  The
legacy (`!poc21`) plot-id registry records go only to the disk batch and do
not touch the in-memory maps. -/
def CRelationView.AcceptAction (plotid : Nat → Nat) (poc21 writeOk : Bool)
    (height : Int) (txid : Nat) (action : CAction) (s : CRelationView) :
    Bool × CRelationView × List (Nat × Nat × Nat) :=
  match action with
  | CAction.bind f t =>
    let s1 := if poc21 then s else
      { s with relationTip := SMap.insert s.relationTip (plotid f) (plotid t) }
    let s2 := { s1 with relationKeyIDTip := SMap.insert s1.relationKeyIDTip f t }
    (writeOk, s2.addRelationHistory height f t, [(txid, f, t)])
  | CAction.unbind f =>
    let s1 := if poc21 then s else
      { s with relationTip := SMap.erase s.relationTip (plotid f) }
    let s2 := { s1 with relationKeyIDTip := SMap.erase s1.relationKeyIDTip f }
    (writeOk, s2.addRelationHistory height f nullKeyID, [(txid, f, nullKeyID)])
  | CAction.nil => (writeOk, s, [])

/-- The accept-dispatch loop of `CRelationView::ConnectBlock`
(actiondb.cpp:200-218) over the per-transaction `(txid, action)` pairs that
pass `DecodeAction`/`VerifyAction` — the in-memory state transition of
connecting a block.  Quantifying over arbitrary action lists covers every
realisable block. -/
def ConnectBlockActions (plotid : Nat → Nat) (poc21 : Bool) (height : Int)
    (acts : List (Nat × CAction)) (s : CRelationView) : CRelationView :=
  acts.foldl
    (fun acc p => (CRelationView.AcceptAction plotid poc21 true height p.1 p.2 acc).2.1) s

/-- `CRelationView::removeRelationHistory` (actiondb.cpp:237-283): drop the
identity's history entries at height ≥ `height`; if none remain erase the
identity from the history map and both tips; otherwise write the pruned
list back, sort it by descending height and find the first entry below
`height` (the greatest remaining height, `getLast?` of the
ascending-sorted list) — if none clear the tips, else point the tips at
that entry's target. -/
def CRelationView.removeRelationHistory (plotid : Nat → Nat) (poc21 : Bool)
    (height : Int) (f : Nat) (s : CRelationView) : CRelationView :=
  if (((SMap.lookup s.relationsHistoryMap f).getD []).filter
      (fun e => decide (e.1 < height))).length = 0 then
    { relationTip := if poc21 then s.relationTip
        else SMap.erase s.relationTip (plotid f)
      relationKeyIDTip := SMap.erase s.relationKeyIDTip f
      relationsHistoryMap := SMap.erase s.relationsHistoryMap f }
  else
    match (((((SMap.lookup s.relationsHistoryMap f).getD []).filter
        (fun e => decide (e.1 < height))).filter
        (fun e => decide (e.1 < height)))).getLast? with
    | none =>
      { relationTip := if poc21 then s.relationTip
          else SMap.erase s.relationTip (plotid f)
        relationKeyIDTip := SMap.erase s.relationKeyIDTip f
        relationsHistoryMap := SMap.insert s.relationsHistoryMap f
          (((SMap.lookup s.relationsHistoryMap f).getD []).filter
            (fun e => decide (e.1 < height))) }
    | some prev =>
      { relationTip := if poc21 then s.relationTip
          else SMap.insert s.relationTip (plotid f) (plotid prev.2)
        relationKeyIDTip := SMap.insert s.relationKeyIDTip f prev.2
        relationsHistoryMap := SMap.insert s.relationsHistoryMap f
          (((SMap.lookup s.relationsHistoryMap f).getD []).filter
            (fun e => decide (e.1 < height))) }

/-- `CRelationView::DisconnectBlock` (actiondb.cpp:285-299): erase the
height's undo-log entry on disk (external store, no in-memory effect), then
for every identity whose history has an entry at exactly this height run
`removeRelationHistory`.  The block argument is only logged. -/
def CRelationView.DisconnectBlock (plotid : Nat → Nat) (poc21 : Bool)
    (height : Int) (blk : List CTx) (s : CRelationView) : CRelationView :=
  ((s.relationsHistoryMap.filter
      (fun e => (SMap.lookup e.2 height).isSome)).map Prod.fst).foldl
    (fun acc f => acc.removeRelationHistory plotid poc21 height f) s

/-- One iteration of the replay loop of `CRelationView::LoadRelationFromDisk`
(actiondb.cpp:310-337): a stored `(txid, (from, to))` change with
`to ≠ CKeyID()` is replayed as a bind, one with `to == CKeyID()` as an
unbind. -/
def CRelationView.loadRelation (plotid : Nat → Nat) (poc21 : Bool)
    (height : Int) (rel : Nat × Nat × Nat) (s : CRelationView) : CRelationView :=
  if rel.2.2 ≠ nullKeyID then
    let s1 := if poc21 then s else
      { s with relationTip :=
          (SMap.insert s.relationTip (plotid rel.2.1) (plotid rel.2.2)) }
    let s2 := { s1 with relationKeyIDTip :=
        (SMap.insert s1.relationKeyIDTip rel.2.1 rel.2.2) }
    s2.addRelationHistory height rel.2.1 rel.2.2
  else
    let s1 := if poc21 then s else
      { s with relationTip := SMap.erase s.relationTip (plotid rel.2.1) }
    let s2 := { s1 with relationKeyIDTip :=
        (SMap.erase s1.relationKeyIDTip rel.2.1) }
    s2.addRelationHistory height rel.2.1 nullKeyID

/-- `CRelationView::LoadRelationFromDisk` (actiondb.cpp:301-340): if the
height has a persisted change list, replay each stored change in order.
The disk read is external; `stored` is the persisted list when the key
exists (`none` models a missing key, which leaves the state unchanged and
returns success). -/
def CRelationView.LoadRelationFromDisk (plotid : Nat → Nat) (poc21 : Bool)
    (height : Int) (stored : Option (List (Nat × Nat × Nat)))
    (s : CRelationView) : Bool × CRelationView :=
  match stored with
  | none => (true, s)
  | some relations =>
    (true, relations.foldl
      (fun acc rel => CRelationView.loadRelation plotid poc21 height rel acc) s)

/-! ## Action codec (`SerializeAction` / `UnserializeAction`,
actiondb.cpp:47-73)

`CDataStream` byte strings are `List Nat` (each element a byte value).
`ss << action.which()` writes the `int` discriminant as 4 little-endian
bytes; `CActionVisitor` then writes the variant's fields: a `CKeyID`
(`uint160`) is 20 raw little-endian bytes, `CBindAction` is the pair
`first` then `second`, `CNilAction` has no fields.  Reading past the end of
a `CDataStream` throws `std::ios_base::failure`, modelled by
`Except.error ()`. -/

/-- Little-endian serialization of `n` into `len` bytes. -/
def serLE : Nat → Nat → List Nat
  | 0, _ => []
  | len + 1, n => n % 256 :: serLE len (n / 256)

/-- Little-endian byte-list value. -/
def deLE : List Nat → Nat
  | [] => 0
  | b :: t => b + 256 * deLE t

/-- `SerializeAction` (actiondb.cpp:47-52). -/
def SerializeAction : CAction → List Nat
  | CAction.nil => serLE 4 0
  | CAction.bind f t => serLE 4 1 ++ serLE 20 f ++ serLE 20 t
  | CAction.unbind f => serLE 4 2 ++ serLE 20 f

/-- `CDataStream::read` of `n` bytes: throws when fewer remain. -/
def readBytes (n : Nat) (bs : List Nat) : Except Unit (List Nat × List Nat) :=
  if n ≤ bs.length then Except.ok (bs.take n, bs.drop n) else Except.error ()

/-- `UnserializeAction` (actiondb.cpp:54-73): read the 4-byte discriminant,
then the fields of variant 1 (bind) or 2 (unbind); anything else is `Nil`.
A stream underrun propagates as `Except.error` (`std::ios_base::failure`,
uncaught in this code). -/
def UnserializeAction (vch : List Nat) : Except Unit CAction := do
  let (tyb, rest) ← readBytes 4 vch
  if deLE tyb = 1 then do
    let (fb, rest2) ← readBytes 20 rest
    let (tb, _) ← readBytes 20 rest2
    Except.ok (CAction.bind (deLE fb) (deLE tb))
  else if deLE tyb = 2 then do
    let (fb, _) ← readBytes 20 rest
    Except.ok (CAction.unbind (deLE fb))
  else Except.ok CAction.nil

/-! ## Signing and verification (`SignAction` / `VerifyAction`,
actiondb.cpp:14-45)

Modelled from the spec: the hashing (`CHashWriter`) and the recoverable
signature scheme (`CKey::SignCompact` / `CPubKey::RecoverCompact`) and the
pubkey-to-identity derivation (`CPubKey::GetID`) are external primitives
("160-bit identity hash derived from a public key; recoverable-signature
sign/verify over a digest", spec §2).  They are idealised: the digest of
`encode(action) ‖ spentOutpoint` is the pair itself (an injective hash), a
compact signature carries the digest it signed and the recoverable public
key, recovery succeeds exactly on the signed digest, and key → public key
→ identity are injective embeddings. -/

/-- The digest `CHashWriter(SER_GETHASH) << SerializeAction(action) << out`
computes, idealised as the (injectively hashed) input pair. -/
abbrev ActionDigest := List Nat × COutPoint

/-- An idealised compact recoverable signature. -/
structure CompactSig where
  digest : ActionDigest
  pubkey : Nat
deriving DecidableEq

/-- Modelled from the spec: public-key derivation from a private key
(external secp256k1), an injective embedding. -/
def CPubKeyOf (key : Nat) : Nat := key

/-- Modelled from the spec: `CPubKey::GetID`, the 160-bit identity hash of
a public key, idealised as injective. -/
def pubKeyGetID (pub : Nat) : Nat := pub

/-- Modelled from the spec: `CKey::SignCompact` over a digest. -/
def SignCompact (digest : ActionDigest) (key : Nat) : CompactSig :=
  ⟨digest, CPubKeyOf key⟩

/-- Modelled from the spec: `CPubKey::RecoverCompact` — recovery succeeds
exactly on the digest that was signed and yields the signer's public key. -/
def RecoverCompact (digest : ActionDigest) (sig : CompactSig) : Option Nat :=
  if sig.digest = digest then some sig.pubkey else none

/-- `SignAction` (actiondb.cpp:14-27), reduced to the signature it appends
(the produced `vch` is `SerializeAction action ++ signature`). -/
def SignAction (out : COutPoint) (action : CAction) (key : Nat) : CompactSig :=
  SignCompact (SerializeAction action, out) key

/-- `VerifyAction` (actiondb.cpp:29-45), generic in the recover primitive
(instantiated with the idealised `RecoverCompact` for signature claims and
with an arbitrary byte-signature recover oracle inside `ConnectBlock`):
recover a public key from the digest of `(SerializeAction action, out)`;
succeed iff the action is a bind or unbind whose `from` equals the
recovered key's identity. -/
def VerifyAction {σ : Type} (recover : ActionDigest → σ → Option Nat)
    (out : COutPoint) (action : CAction) (vchSig : σ) : Bool :=
  match recover (SerializeAction action, out) vchSig with
  | none => false
  | some pub =>
    match action with
    | CAction.bind f _ => decide (f = pubKeyGetID pub)
    | CAction.unbind f => decide (f = pubKeyGetID pub)
    | CAction.nil => false

/-- The `from` field of an action (`CBindAction.first` / `CUnbindAction`). -/
def actionFrom : CAction → Option Nat
  | CAction.bind f _ => some f
  | CAction.unbind f => some f
  | CAction.nil => none

/-! ## Scripts (`script.h` semantics used by ticket.cpp and DecodeAction) -/

def OP_RETURN : Nat := 106
def OP_CHECKLOCKTIMEVERIFY : Nat := 177
def OP_DROP : Nat := 117
def OP_CHECKSIG : Nat := 172
def OP_PUSHDATA1 : Nat := 76
def OP_PUSHDATA2 : Nat := 77
def OP_PUSHDATA4 : Nat := 78

/-- `CScript::GetOp`: read one opcode (and its push payload when the opcode
is a direct push `1..75` or `OP_PUSHDATA1/2/4`); `none` models the C++
`false` return (end of script or truncated push). -/
def GetOp (script : List Nat) : Option (Nat × List Nat × List Nat) :=
  match script with
  | [] => none
  | op :: rest =>
    if op < OP_PUSHDATA1 then
      if op ≤ rest.length then some (op, rest.take op, rest.drop op) else none
    else if op = OP_PUSHDATA1 then
      match rest with
      | n :: r2 => if n ≤ r2.length then some (op, r2.take n, r2.drop n) else none
      | [] => none
    else if op = OP_PUSHDATA2 then
      match rest with
      | n0 :: n1 :: r2 =>
        if n0 + 256 * n1 ≤ r2.length then
          some (op, r2.take (n0 + 256 * n1), r2.drop (n0 + 256 * n1))
        else none
      | _ => none
    else if op = OP_PUSHDATA4 then
      match rest with
      | n0 :: n1 :: n2 :: n3 :: r2 =>
        if n0 + 256 * n1 + 65536 * n2 + 16777216 * n3 ≤ r2.length then
          some (op, r2.take (n0 + 256 * n1 + 65536 * n2 + 16777216 * n3),
            r2.drop (n0 + 256 * n1 + 65536 * n2 + 16777216 * n3))
        else none
      | _ => none
    else some (op, [], rest)

/-- `CScript::operator<<(const std::vector<unsigned char>&)`: a data push —
direct length byte below `OP_PUSHDATA1`, otherwise the pushdata opcode and
a little-endian length. -/
def pushData (d : List Nat) : List Nat :=
  if d.length < OP_PUSHDATA1 then d.length :: d
  else if d.length ≤ 255 then OP_PUSHDATA1 :: d.length :: d
  else if d.length ≤ 65535 then
    OP_PUSHDATA2 :: d.length % 256 :: d.length / 256 :: d
  else
    OP_PUSHDATA4 :: d.length % 256 :: d.length / 256 % 256 ::
      d.length / 65536 % 256 :: d.length / 16777216 % 256 :: d

/-- Little-endian magnitude bytes of a natural number (most significant
last, no trailing zero byte). -/
def absBytes (m : Nat) : List Nat :=
  if h : m = 0 then [] else m % 256 :: absBytes (m / 256)
termination_by m
decreasing_by
  exact Nat.div_lt_self (Nat.pos_of_ne_zero h) (by omega)

/-- `CScriptNum::serialize` (via `getvch`): little-endian sign-and-magnitude
with a padding byte when the top magnitude byte would collide with the sign
bit. -/
def CScriptNumSerialize (n : Int) : List Nat :=
  if n = 0 then []
  else
    match (absBytes n.natAbs).getLast? with
    | none => []
    | some b =>
      if 128 ≤ b then absBytes n.natAbs ++ [if n < 0 then 128 else 0]
      else if n < 0 then (absBytes n.natAbs).dropLast ++ [b + 128]
      else absBytes n.natAbs

/-- `CScriptNum::set_vch`: decode the little-endian sign-and-magnitude
encoding. -/
def CScriptNumValue (vch : List Nat) : Int :=
  match vch.getLast? with
  | none => 0
  | some b =>
    if 128 ≤ b then -(Int.ofNat (deLE vch - 128 * 256 ^ (vch.length - 1)))
    else Int.ofNat (deLE vch)

/-- The `CScriptNum(vch, fRequireMinimal = true)` constructor with the
default `nMaxNumSize = 4`: throws (`Except.error`) on an over-long or
non-minimal encoding, else yields the decoded value. -/
def CScriptNum4 (vch : List Nat) : Except Unit Int :=
  if 4 < vch.length then Except.error ()
  else
    match vch.getLast? with
    | none => Except.ok 0
    | some b =>
      if b % 128 = 0 then
        match vch.dropLast.getLast? with
        | none => Except.error ()
        | some b2 =>
          if b2 < 128 then Except.error () else Except.ok (CScriptNumValue vch)
      else Except.ok (CScriptNumValue vch)

/-- `GenerateTicketScript` (ticket.cpp:6-11): push the lock height as a
`CScriptNum`, then `OP_CHECKLOCKTIMEVERIFY`, `OP_DROP`, push the 33-byte
public key, `OP_CHECKSIG`. -/
def GenerateTicketScript (keyid : List Nat) (lockHeight : Int) : List Nat :=
  pushData (CScriptNumSerialize lockHeight) ++
    [OP_CHECKLOCKTIMEVERIFY, OP_DROP] ++ pushData keyid ++ [OP_CHECKSIG]

/-- `GetPublicKeyFromScript` (ticket.cpp:13-32): first op pushes a positive
`CScriptNum` (the minimal-encoding constructor may throw), then
`OP_CHECKLOCKTIMEVERIFY`, then `OP_DROP`, then a 33-byte push taken as the
public key (`CPubKey` construction from those bytes is external and
modelled as the byte copy).  `Except.ok none` is the `false` return. -/
def GetPublicKeyFromScript (script : List Nat) :
    Except Unit (Option (List Nat)) :=
  match GetOp script with
  | none => Except.ok none
  | some (_, vchRet, pc) => do
    let n ← CScriptNum4 vchRet
    if 0 < n then
      match GetOp pc with
      | some (op2, _, pc2) =>
        if op2 = OP_CHECKLOCKTIMEVERIFY then
          match GetOp pc2 with
          | some (op3, _, pc3) =>
            if op3 = OP_DROP then
              match GetOp pc3 with
              | some (_, d4, _) =>
                if d4.length = 33 then Except.ok (some d4) else Except.ok none
              | none => Except.ok none
            else Except.ok none
          | none => Except.ok none
        else Except.ok none
      | none => Except.ok none
    else Except.ok none

/-! ## Action extraction and block connection (actiondb.cpp:75-110, 200-225) -/

/-- The coin-value sum of `DecodeAction`'s fee check: for each input,
`pcoinsTip->AccessCoin(vin.prevout).out.nValue`, summed.  The coin lookup
is the external UTXO view, passed as a function. -/
def sumInputValues (coins : COutPoint → Int) (vins : List COutPoint) : Int :=
  (vins.map coins).sum

/-- The output scan of `DecodeAction` (actiondb.cpp:92-107): skip non-zero
value outputs; the script must start with `OP_RETURN`; the next op's
payload (empty when `GetOp` fails, since `GetOp` clears the output vector)
is unserialized — which may throw — and must be at least 65 bytes, its
trailing 65 bytes being the signature. -/
def decodeLoop : List CTxOut → Except Unit (CAction × List Nat)
  | [] => Except.ok (CAction.nil, [])
  | o :: rest =>
    if o.nValue ≠ 0 then decodeLoop rest
    else
      match GetOp o.scriptPubKey with
      | none => decodeLoop rest
      | some (op1, _, pc) =>
        if op1 ≠ OP_RETURN then decodeLoop rest
        else do
          let vchRet := match GetOp pc with
            | some (_, d, _) => d
            | none => []
          let action ← UnserializeAction vchRet
          if vchRet.length < 65 then decodeLoop rest
          else Except.ok (action, vchRet.drop (vchRet.length - 65))

/-- `DecodeAction` (actiondb.cpp:75-110): shape gate (not coinbase, not
null, exactly two outputs, at least one zero-valued), fee gate
(`sum of input coin values − GetValueOut = nActionFee`, the consensus
constant `Params().GetConsensus().nActionFee` passed as a parameter), then
the output scan.  Every rejected gate yields the `Nil` action. -/
def DecodeAction (nActionFee : Int) (coins : COutPoint → Int) (tx : CTx) :
    Except Unit (CAction × List Nat) :=
  if tx.IsCoinBase || tx.IsNull then Except.ok (CAction.nil, [])
  else
    match tx.vout with
    | [o1, o2] =>
      if o1.nValue ≠ 0 ∧ o2.nValue ≠ 0 then Except.ok (CAction.nil, [])
      else
        if sumInputValues coins tx.vin - tx.GetValueOut ≠ nActionFee then
          Except.ok (CAction.nil, [])
        else decodeLoop [o1, o2]
    | _ => Except.ok (CAction.nil, [])

/-- `CRelationView::ConnectBlock` (actiondb.cpp:200-225): per transaction,
extract an action; when non-nil, verify it against the first input's
prevout (the source indexes `vin[0]`; `headD` supplies a default for the
empty case) using the external `recover` primitive on the 65 signature
bytes; on success dispatch to `AcceptAction`, whose boolean result is only
logged.  The final `WriteRelationsToDisk` writes the collected changes to
the external store and its result is only logged, so it does not affect
the returned state.  The function returns `void` in the source — the only
caller-visible outcome is the mutated state (or a propagated decode
exception). -/
def ConnectBlock (nActionFee : Int) (coins : COutPoint → Int)
    (recover : ActionDigest → List Nat → Option Nat) (plotid : Nat → Nat)
    (poc21 writeOk : Bool) (height : Int) (blk : List CTx)
    (s : CRelationView) : Except Unit CRelationView :=
  match blk with
  | [] => Except.ok s
  | tx :: rest => do
    let (action, vchSig) ← DecodeAction nActionFee coins tx
    let s' :=
      if action ≠ CAction.nil then
        if VerifyAction recover (tx.vin.headD nullOutPoint) action vchSig then
          (CRelationView.AcceptAction plotid poc21 writeOk height tx.txid action s).2.1
        else s
      else s
    ConnectBlock nActionFee coins recover plotid poc21 writeOk height rest s'

/-! ## State predicates and block sequences

Decidable well-formedness and consistency predicates over the ledger state,
used to characterise the initial states for which connect/disconnect is an
inverse pair.  All quantifiers range over the stored entries, so each
predicate is decidable on concrete states. -/

/-- The delegation target induced by a history list: the target of its
highest-height entry, absent when the list is empty or that entry is an
unbind marker (`CKeyID()`). -/
def tipOfList (l : List (Int × Nat)) : Option Nat :=
  match l.getLast? with
  | none => none
  | some e => if e.2 = nullKeyID then none else some e.2

/-- All four maps sorted, inner history lists sorted and never stored
empty. -/
def WFState (s : CRelationView) : Prop :=
  SMap.WF s.relationTip ∧ SMap.WF s.relationKeyIDTip ∧
  SMap.WF s.relationsHistoryMap ∧
  ∀ e ∈ s.relationsHistoryMap, SMap.WF e.2 ∧ e.2 ≠ []

/-- Invariant I1 (exact form): `relationKeyIDTip` holds `from ↦ to` exactly
when the highest-height entry of `from`'s history is a bind to `to`. -/
def TipExact (s : CRelationView) : Prop :=
  (∀ e ∈ s.relationKeyIDTip, tipOfList (histOf s e.1) = some e.2) ∧
  (∀ e ∈ s.relationsHistoryMap,
    SMap.lookup s.relationKeyIDTip e.1 = tipOfList e.2)

/-- No identity's highest-height history entry is an unbind marker (the
default pair stands in for the empty-history case, where the condition
holds vacuously). -/
def NoTopUnbind (s : CRelationView) : Prop :=
  ∀ e ∈ s.relationsHistoryMap, (e.2.getLast?.getD (0, 1)).2 ≠ nullKeyID

/-- Invariant I3 (bounded form): `relationTip` is exactly the plot-id
projection of `relationKeyIDTip`. -/
def RtipOkB (plotid : Nat → Nat) (s : CRelationView) : Prop :=
  (∀ e ∈ s.relationKeyIDTip,
    SMap.lookup s.relationTip (plotid e.1) = some (plotid e.2)) ∧
  (∀ e ∈ s.relationTip,
    ∃ t ∈ s.relationKeyIDTip, plotid t.1 = e.1 ∧ plotid t.2 = e.2)

/-- Every stored history height is strictly below `h`. -/
def HeightsBelow (s : CRelationView) (h : Int) : Prop :=
  ∀ e ∈ s.relationsHistoryMap, ∀ x ∈ e.2, x.1 < h

/-- Pointwise form of I1 weakened by the disconnect-restore quirk: each
tip entry either matches the history top exactly, or is a null-identity
entry left where the history top is an unbind marker. -/
def TipApprox (s : CRelationView) : Prop :=
  ∀ f, SMap.lookup s.relationKeyIDTip f = tipOfList (histOf s f) ∨
    ((∃ x, (histOf s f).getLast? = some x ∧ x.2 = nullKeyID) ∧
      SMap.lookup s.relationKeyIDTip f = some nullKeyID)

/-- Pointwise form of I3, relative to an injective plot-id derivation. -/
def RtipPt (plotid : Nat → Nat) (s : CRelationView) : Prop :=
  (∀ k, SMap.lookup s.relationTip (plotid k) =
    Option.map plotid (SMap.lookup s.relationKeyIDTip k)) ∧
  (∀ q, (∀ k, plotid k ≠ q) → SMap.lookup s.relationTip q = none)

/-- Connecting a sequence of blocks, each given by its height and its
accepted `(txid, action)` list. -/
def ConnectSeq (plotid : Nat → Nat) (poc21 : Bool)
    (bs : List (Int × List (Nat × CAction))) (s : CRelationView) :
    CRelationView :=
  bs.foldl (fun acc b => ConnectBlockActions plotid poc21 b.1 b.2 acc) s

/-- Disconnecting the same sequence in reverse order (the block argument of
`DisconnectBlock` does not influence the state — see the C9 theorem — so
the empty block is passed). -/
def DisconnectSeqRev (plotid : Nat → Nat) (poc21 : Bool)
    (bs : List (Int × List (Nat × CAction))) (s : CRelationView) :
    CRelationView :=
  bs.reverse.foldl
    (fun acc b => CRelationView.DisconnectBlock plotid poc21 b.1 [] acc) s

/-- The last action of a block touching identity `f`, as
`(isBind, history value)`: a bind records its target, an unbind records
the null identity. -/
def lastActOn (acts : List (Nat × CAction)) (f : Nat) : Option (Bool × Nat) :=
  acts.foldl
    (fun acc p =>
      match p.2 with
      | CAction.bind g t => if g = f then some (true, t) else acc
      | CAction.unbind g => if g = f then some (false, nullKeyID) else acc
      | CAction.nil => acc) none

/-- The stored `CRelationActive` entry an accepted action contributes
(actiondb.cpp:163,180): `(txid, (from, to))`, with the null identity as
`to` for an unbind; `Nil` contributes nothing. -/
def relOf (p : Nat × CAction) : Option (Nat × Nat × Nat) :=
  match p.2 with
  | CAction.bind f t => some (p.1, f, t)
  | CAction.unbind f => some (p.1, f, nullKeyID)
  | CAction.nil => none

/-- In-range actions: every identity field fits in 160 bits (`CKeyID` is a
`uint160`; the unbounded `Nat` embedding admits out-of-range junk the C++
type cannot hold). -/
def ActionWF (a : CAction) : Prop :=
  match a with
  | CAction.nil => True
  | CAction.bind f t => f < 2 ^ 160 ∧ t < 2 ^ 160
  | CAction.unbind f => f < 2 ^ 160

instance (a : CAction) : Decidable (ActionWF a) := by
  cases a <;> simp only [ActionWF] <;> infer_instance

/-- The action's bind target (if any) is not the null identity: binds to
`CKeyID()` are the one shape whose persisted change is ambiguous with an
unbind. -/
def BindTargetNonNull (a : CAction) : Prop :=
  match a with
  | CAction.bind _ t => t ≠ nullKeyID
  | _ => True

instance (a : CAction) : Decidable (BindTargetNonNull a) := by
  cases a <;> simp only [BindTargetNonNull] <;> infer_instance

/-- Every stored history height is at most `h` (holds between the actions
of one block being connected at height `h`). -/
def HeightsBelowEq (s : CRelationView) (h : Int) : Prop :=
  ∀ e ∈ s.relationsHistoryMap, ∀ x ∈ e.2, x.1 ≤ h

/-- The invariant carried through connect/disconnect sequences:
well-formed maps, the pointwise weak form of I1, and (in legacy mode) the
pointwise form of I3. -/
def LedgerInv (plotid : Nat → Nat) (poc21 : Bool) (s : CRelationView) : Prop :=
  WFState s ∧ TipApprox s ∧ (poc21 = false → RtipPt plotid s)

instance (s : CRelationView) : Decidable (WFState s) := by
  unfold WFState
  infer_instance

instance (s : CRelationView) : Decidable (TipExact s) := by
  unfold TipExact
  infer_instance

instance (s : CRelationView) : Decidable (NoTopUnbind s) := by
  unfold NoTopUnbind
  infer_instance

instance (plotid : Nat → Nat) (s : CRelationView) :
    Decidable (RtipOkB plotid s) := by
  unfold RtipOkB
  infer_instance

instance (s : CRelationView) (h : Int) : Decidable (HeightsBelow s h) := by
  unfold HeightsBelow
  infer_instance

/-! ## Lemmas about the sorted-map operations -/
theorem smap_wf_nil {K V : Type} [LinearOrder K] : SMap.WF ([] : List (K × V)) :=
  List.Pairwise.nil

theorem smap_lookup_eq_none_of_lt {K V : Type} [LinearOrder K]
    (l : List (K × V)) (k : K) (h : SMap.WF l) (hlt : ∀ e ∈ l, k < e.1) :
    SMap.lookup l k = none := by
  induction l with
  | nil => rfl
  | cons e t ih =>
    simp only [SMap.lookup]
    have hk : k < e.1 := hlt e (by simp)
    rw [if_neg (by exact fun hh => absurd hh (ne_of_gt hk))]
    exact ih (List.Pairwise.sublist (List.sublist_cons_self e t) h)
      (fun x hx => hlt x (List.mem_cons_of_mem e hx))

theorem smap_lookup_head_tail {K V : Type} [LinearOrder K]
    (e : K × V) (t : List (K × V)) (h : SMap.WF (e :: t)) :
    SMap.lookup t e.1 = none := by
  apply smap_lookup_eq_none_of_lt t e.1
  · exact List.Pairwise.sublist (List.sublist_cons_self e t) h
  · exact fun x hx => (List.pairwise_cons.mp h).1 x hx

theorem smap_mem_of_lookup {K V : Type} [DecidableEq K]
    (l : List (K × V)) (k : K) (v : V) (h : SMap.lookup l k = some v) :
    (k, v) ∈ l := by
  induction l with
  | nil => simp [SMap.lookup] at h
  | cons e t ih =>
    simp only [SMap.lookup] at h
    by_cases hk : e.1 = k
    · rw [if_pos hk] at h
      cases e with
      | mk a b =>
        simp only at hk
        have hb : b = v := Option.some.inj h
        subst hk
        subst hb
        exact List.mem_cons_self _ _
    · rw [if_neg hk] at h
      exact List.mem_cons_of_mem e (ih h)

theorem smap_lookup_of_mem {K V : Type} [LinearOrder K]
    (l : List (K × V)) (k : K) (v : V) (hwf : SMap.WF l) (h : (k, v) ∈ l) :
    SMap.lookup l k = some v := by
  induction l with
  | nil => simp at h
  | cons e t ih =>
    simp only [SMap.lookup]
    rcases List.mem_cons.mp h with h1 | h2
    · rw [← h1]
      simp
    · have hk : e.1 ≠ k := by
        intro he
        have := (List.pairwise_cons.mp hwf).1 (k, v) h2
        simp only at this
        rw [he] at this
        exact lt_irrefl k this
      rw [if_neg hk]
      exact ih (List.Pairwise.sublist (List.sublist_cons_self e t) hwf) h2

/-- Two well-formed sorted maps with the same lookups are structurally equal
(the counterpart of `std::map::operator==` comparing ordered sequences). -/
theorem smap_ext {K V : Type} [LinearOrder K] :
    ∀ (l1 l2 : List (K × V)), SMap.WF l1 → SMap.WF l2 →
    (∀ k, SMap.lookup l1 k = SMap.lookup l2 k) → l1 = l2 := by
  intro l1
  induction l1 with
  | nil =>
    intro l2 _ h2 h
    cases l2 with
    | nil => rfl
    | cons e t =>
      have := h e.1
      simp only [SMap.lookup, if_pos rfl] at this
      exact absurd this.symm (by simp)
  | cons a t1 ih =>
    intro l2 h1 h2 h
    cases l2 with
    | nil =>
      have := h a.1
      simp only [SMap.lookup, if_pos rfl] at this
      exact absurd this (by simp)
    | cons b t2 =>
      have hab : a.1 = b.1 := by
        rcases lt_trichotomy a.1 b.1 with hlt | heq | hgt
        · exfalso
          have hnone : SMap.lookup (b :: t2) a.1 = none := by
            apply smap_lookup_eq_none_of_lt _ _ h2
            intro e he
            rcases List.mem_cons.mp he with h1' | h2'
            · rw [h1']; exact hlt
            · exact lt_trans hlt ((List.pairwise_cons.mp h2).1 e h2')
          have hthis := h a.1
          rw [hnone] at hthis
          simp [SMap.lookup] at hthis
        · exact heq
        · exfalso
          have hnone : SMap.lookup (a :: t1) b.1 = none := by
            apply smap_lookup_eq_none_of_lt _ _ h1
            intro e he
            rcases List.mem_cons.mp he with h1' | h2'
            · rw [h1']; exact hgt
            · exact lt_trans hgt ((List.pairwise_cons.mp h1).1 e h2')
          have hthis := h b.1
          rw [hnone] at hthis
          simp [SMap.lookup] at hthis
      have hv : a.2 = b.2 := by
        have := h a.1
        simp only [SMap.lookup, if_pos rfl, hab, if_pos rfl] at this
        exact Option.some.inj this
      have htail : t1 = t2 := by
        apply ih t2 (List.Pairwise.sublist (List.sublist_cons_self a t1) h1)
          (List.Pairwise.sublist (List.sublist_cons_self b t2) h2)
        intro k
        by_cases hk : k = a.1
        · rw [hk]
          rw [smap_lookup_head_tail a t1 h1]
          rw [hab]
          rw [smap_lookup_head_tail b t2 h2]
        · have := h k
          simp only [SMap.lookup] at this
          rw [if_neg (fun hh => hk hh.symm), if_neg (fun hh => hk (by rw [← hab] at hh; exact hh.symm))] at this
          exact this
      cases a
      cases b
      simp only at hab hv
      rw [hab, hv, htail]

theorem smap_lookup_insert_self {K V : Type} [LinearOrder K]
    (l : List (K × V)) (k : K) (v : V) :
    SMap.lookup (SMap.insert l k v) k = some v := by
  induction l with
  | nil => simp [SMap.insert, SMap.lookup]
  | cons e t ih =>
    simp only [SMap.insert]
    by_cases h1 : k < e.1
    · rw [if_pos h1]
      simp [SMap.lookup]
    · rw [if_neg h1]
      by_cases h2 : k = e.1
      · rw [if_pos h2]
        simp [SMap.lookup]
      · rw [if_neg h2]
        simp only [SMap.lookup]
        rw [if_neg (fun hh => h2 hh.symm)]
        exact ih

theorem smap_lookup_insert_ne {K V : Type} [LinearOrder K]
    (l : List (K × V)) (k k' : K) (v : V) (hne : k' ≠ k) :
    SMap.lookup (SMap.insert l k v) k' = SMap.lookup l k' := by
  induction l with
  | nil =>
    simp only [SMap.insert, SMap.lookup]
    rw [if_neg (fun hh => hne hh.symm)]
  | cons e t ih =>
    simp only [SMap.insert]
    by_cases h1 : k < e.1
    · rw [if_pos h1]
      simp only [SMap.lookup]
      rw [if_neg (fun hh => hne hh.symm)]
    · rw [if_neg h1]
      by_cases h2 : k = e.1
      · rw [if_pos h2]
        simp only [SMap.lookup]
        rw [if_neg (fun hh => hne hh.symm), if_neg (by rw [← h2]; exact fun hh => hne hh.symm)]
      · rw [if_neg h2]
        simp only [SMap.lookup]
        by_cases h3 : e.1 = k'
        · rw [if_pos h3, if_pos h3]
        · rw [if_neg h3, if_neg h3]
          exact ih

theorem smap_mem_insert {K V : Type} [LinearOrder K]
    (l : List (K × V)) (k : K) (v : V) (e' : K × V)
    (he' : e' ∈ SMap.insert l k v) : e' ∈ l ∨ e' = (k, v) := by
  induction l with
  | nil =>
    simp only [SMap.insert] at he'
    right
    simpa using he'
  | cons f s ihs =>
    simp only [SMap.insert] at he'
    by_cases hf1 : k < f.1
    · rw [if_pos hf1] at he'
      rcases List.mem_cons.mp he' with hx | hx
      · right; exact hx
      · left; exact hx
    · rw [if_neg hf1] at he'
      by_cases hf2 : k = f.1
      · rw [if_pos hf2] at he'
        rcases List.mem_cons.mp he' with hx | hx
        · right; exact hx
        · left; exact List.mem_cons_of_mem f hx
      · rw [if_neg hf2] at he'
        rcases List.mem_cons.mp he' with hx | hx
        · left; rw [hx]; simp
        · rcases ihs hx with hy | hy
          · left; exact List.mem_cons_of_mem f hy
          · right; exact hy

theorem smap_wf_insert {K V : Type} [LinearOrder K]
    (l : List (K × V)) (k : K) (v : V) (h : SMap.WF l) :
    SMap.WF (SMap.insert l k v) := by
  induction l with
  | nil => simp [SMap.insert, SMap.WF]
  | cons e t ih =>
    simp only [SMap.insert]
    by_cases h1 : k < e.1
    · rw [if_pos h1]
      apply List.pairwise_cons.mpr
      refine ⟨?_, h⟩
      intro e' he'
      rcases List.mem_cons.mp he' with h1' | h2'
      · rw [h1']; exact h1
      · exact lt_trans h1 ((List.pairwise_cons.mp h).1 e' h2')
    · rw [if_neg h1]
      by_cases h2 : k = e.1
      · rw [if_pos h2]
        apply List.pairwise_cons.mpr
        refine ⟨?_, List.Pairwise.sublist (List.sublist_cons_self e t) h⟩
        intro e' he'
        rw [h2]
        exact (List.pairwise_cons.mp h).1 e' he'
      · rw [if_neg h2]
        apply List.pairwise_cons.mpr
        have hgt : e.1 < k := by
          rcases lt_trichotomy k e.1 with ha | hb | hc
          · exact absurd ha h1
          · exact absurd hb h2
          · exact hc
        refine ⟨?_, ih (List.Pairwise.sublist (List.sublist_cons_self e t) h)⟩
        intro e' he'
        rcases smap_mem_insert t k v e' he' with hx | hx
        · exact (List.pairwise_cons.mp h).1 e' hx
        · rw [hx]; exact hgt

theorem smap_erase_sublist {K V : Type} [DecidableEq K]
    (l : List (K × V)) (k : K) : (SMap.erase l k).Sublist l := by
  induction l with
  | nil => simp [SMap.erase]
  | cons e t ih =>
    simp only [SMap.erase]
    by_cases h : e.1 = k
    · rw [if_pos h]
      exact List.sublist_cons_self e t
    · rw [if_neg h]
      exact List.Sublist.cons₂ e ih

theorem smap_wf_erase {K V : Type} [LinearOrder K]
    (l : List (K × V)) (k : K) (h : SMap.WF l) : SMap.WF (SMap.erase l k) :=
  List.Pairwise.sublist (smap_erase_sublist l k) h

theorem smap_lookup_erase_self {K V : Type} [LinearOrder K]
    (l : List (K × V)) (k : K) (h : SMap.WF l) :
    SMap.lookup (SMap.erase l k) k = none := by
  induction l with
  | nil => rfl
  | cons e t ih =>
    simp only [SMap.erase]
    by_cases h1 : e.1 = k
    · rw [if_pos h1]
      rw [← h1]
      exact smap_lookup_head_tail e t h
    · rw [if_neg h1]
      simp only [SMap.lookup]
      rw [if_neg h1]
      exact ih (List.Pairwise.sublist (List.sublist_cons_self e t) h)

theorem smap_lookup_erase_ne {K V : Type} [DecidableEq K]
    (l : List (K × V)) (k k' : K) (hne : k' ≠ k) :
    SMap.lookup (SMap.erase l k) k' = SMap.lookup l k' := by
  induction l with
  | nil => rfl
  | cons e t ih =>
    simp only [SMap.erase]
    by_cases h1 : e.1 = k
    · rw [if_pos h1]
      simp only [SMap.lookup]
      rw [if_neg (by rw [h1]; exact fun hh => hne hh.symm)]
    · rw [if_neg h1]
      simp only [SMap.lookup]
      by_cases h2 : e.1 = k'
      · rw [if_pos h2, if_pos h2]
      · rw [if_neg h2, if_neg h2]
        exact ih

theorem smap_lookup_append {K V : Type} [DecidableEq K]
    (l1 l2 : List (K × V)) (k : K) :
    SMap.lookup (l1 ++ l2) k =
      match SMap.lookup l1 k with
      | some v => some v
      | none => SMap.lookup l2 k := by
  induction l1 with
  | nil => simp [SMap.lookup]
  | cons e t ih =>
    simp only [List.cons_append, SMap.lookup]
    by_cases h : e.1 = k
    · rw [if_pos h, if_pos h]
    · rw [if_neg h, if_neg h]
      exact ih

theorem smap_wf_append_last {K V : Type} [LinearOrder K]
    (l : List (K × V)) (k : K) (v : V) (hwf : SMap.WF l)
    (hlt : ∀ e ∈ l, e.1 < k) : SMap.WF (l ++ [(k, v)]) := by
  apply List.pairwise_append.mpr
  refine ⟨hwf, by simp, ?_⟩
  intro a ha b hb
  simp only [List.mem_singleton] at hb
  rw [hb]
  exact hlt a ha

/-- Inserting at a key at least every present key replaces or appends at the
end: the result is the strictly-smaller entries followed by the new binding. -/
theorem smap_insert_top {K V : Type} [LinearOrder K]
    (l : List (K × V)) (k : K) (v : V) (hwf : SMap.WF l)
    (hle : ∀ e ∈ l, e.1 ≤ k) :
    SMap.insert l k v = l.filter (fun e => decide (e.1 < k)) ++ [(k, v)] := by
  induction l with
  | nil => simp [SMap.insert]
  | cons e t ih =>
    simp only [SMap.insert]
    have he : e.1 ≤ k := hle e (by simp)
    rw [if_neg (by exact fun hh => absurd he (not_le.mpr hh))]
    by_cases h2 : k = e.1
    · rw [if_pos h2]
      have ht : t = [] := by
        cases t with
        | nil => rfl
        | cons f s =>
          exfalso
          have h1 := (List.pairwise_cons.mp hwf).1 f (by simp)
          have h2' := hle f (by simp)
          rw [← h2] at h1
          exact absurd h2' (not_le.mpr h1)
      subst ht
      simp only [List.filter_cons]
      rw [if_neg (by simp [h2])]
      simp
    · rw [if_neg h2]
      have helt : e.1 < k := lt_of_le_of_ne he (fun hh => h2 hh.symm)
      simp only [List.filter_cons]
      rw [if_pos (by simpa using helt)]
      simp only [List.cons_append, List.cons.injEq, true_and]
      exact ih (List.Pairwise.sublist (List.sublist_cons_self e t) hwf)
        (fun x hx => hle x (List.mem_cons_of_mem e hx))

theorem smap_wf_filter {K V : Type} [LinearOrder K]
    (l : List (K × V)) (p : K × V → Bool) (hwf : SMap.WF l) :
    SMap.WF (l.filter p) :=
  List.Pairwise.sublist (List.filter_sublist l) hwf

theorem smap_filter_append_last_lt {K V : Type} [LinearOrder K]
    (l : List (K × V)) (k : K) (v : V) (h : K) (hk : ¬ k < h) :
    (l ++ [(k, v)]).filter (fun e => decide (e.1 < h)) =
      l.filter (fun e => decide (e.1 < h)) := by
  rw [List.filter_append]
  simp [List.filter_cons, hk]

/-! ## Codec lemmas -/

theorem serLE_length (len n : Nat) : (serLE len n).length = len := by
  induction len generalizing n with
  | zero => rfl
  | succ l ih => simp [serLE, ih]

theorem deLE_serLE (len n : Nat) (h : n < 256 ^ len) :
    deLE (serLE len n) = n := by
  induction len generalizing n with
  | zero =>
    simp only [Nat.pow_zero, Nat.lt_one_iff] at h
    simp [serLE, deLE, h]
  | succ l ih =>
    simp only [serLE, deLE]
    rw [ih (n / 256) (by
      rw [Nat.pow_succ] at h
      exact Nat.div_lt_of_lt_mul (by omega))]
    omega

theorem readBytes_append (n : Nat) (l r : List Nat) (h : l.length = n) :
    readBytes n (l ++ r) = Except.ok (l, r) := by
  subst h
  simp [readBytes, List.take_left, List.drop_left]

theorem readBytes_exact (n : Nat) (l : List Nat) (h : l.length = n) :
    readBytes n l = Except.ok (l, []) := by
  subst h
  simp [readBytes]

/-- Claim C5 (codec round-trip): for every in-range action,
`UnserializeAction (SerializeAction a)` returns `a` without error; the
encoding is the 4-byte little-endian discriminant — 1 for a bind, 2 for an
unbind, 0 (implicit Nil) otherwise — followed by the variant's 20-byte
identity fields; determinism holds because the encoder is a function of the
action alone. -/
theorem c5_codec_roundtrip (a : CAction) (ha : ActionWF a) :
    UnserializeAction (SerializeAction a) = Except.ok a ∧
    (∀ f t, a = CAction.bind f t → (SerializeAction a).take 4 = [1, 0, 0, 0]) ∧
    (∀ f, a = CAction.unbind f → (SerializeAction a).take 4 = [2, 0, 0, 0]) ∧
    (a = CAction.nil → SerializeAction a = [0, 0, 0, 0]) := by
  refine ⟨?_, ?_, ?_, ?_⟩
  · cases a with
    | nil => rfl
    | bind f t =>
      obtain ⟨hf, ht⟩ := ha
      show UnserializeAction (serLE 4 1 ++ serLE 20 f ++ serLE 20 t) = _
      rw [List.append_assoc]
      unfold UnserializeAction
      rw [readBytes_append 4 _ _ (serLE_length 4 1)]
      have h1 : deLE (serLE 4 1) = 1 := by decide
      simp only [h1, bind, Except.bind, if_true]
      rw [readBytes_append 20 _ _ (serLE_length 20 f)]
      simp only [Except.bind]
      rw [readBytes_exact 20 (serLE 20 t) (serLE_length 20 t)]
      simp only [Except.bind]
      rw [deLE_serLE 20 f (by simpa using hf), deLE_serLE 20 t (by simpa using ht)]
    | unbind f =>
      show UnserializeAction (serLE 4 2 ++ serLE 20 f) = _
      unfold UnserializeAction
      rw [readBytes_append 4 _ _ (serLE_length 4 2)]
      have h2 : deLE (serLE 4 2) = 2 := by decide
      simp only [h2, bind, Except.bind, if_true]
      rw [if_neg (by decide)]
      rw [readBytes_exact 20 (serLE 20 f) (serLE_length 20 f)]
      simp only [Except.bind]
      rw [deLE_serLE 20 f (by simpa using ha)]
  · intro f t he
    subst he
    rfl
  · intro f he
    subst he
    rfl
  · intro he
    subst he
    rfl

/-- Witness for C5 at a concrete in-range action. -/
theorem c5_codec_roundtrip_witness :
    UnserializeAction (SerializeAction (CAction.bind 5 6)) =
      Except.ok (CAction.bind 5 6) ∧
    (∀ f t, CAction.bind 5 6 = CAction.bind f t →
      (SerializeAction (CAction.bind 5 6)).take 4 = [1, 0, 0, 0]) ∧
    (∀ f, CAction.bind 5 6 = CAction.unbind f →
      (SerializeAction (CAction.bind 5 6)).take 4 = [2, 0, 0, 0]) ∧
    (CAction.bind 5 6 = CAction.nil →
      SerializeAction (CAction.bind 5 6) = [0, 0, 0, 0]) :=
  c5_codec_roundtrip (CAction.bind 5 6) (by decide)

/-- Claim C6 evaluated at its failing inputs: `UnserializeAction` is *not*
total — the empty byte string (and any input under 4 bytes) and a
discriminant of 1 or 2 with truncated fields make the `CDataStream` reads
throw (`Except.error`), which no caller catches, instead of returning
`Nil`; only an input holding a full discriminant other than 1/2 yields
`Nil`.  The final conjunct shows the exception escaping `DecodeAction` on a
well-shaped, fee-correct transaction whose `OP_RETURN` payload is 2 bytes. -/
theorem c6_short_input_throws :
    UnserializeAction [] = Except.error () ∧
    UnserializeAction [1, 0, 0] = Except.error () ∧
    UnserializeAction (serLE 4 1) = Except.error () ∧
    UnserializeAction (serLE 4 2 ++ [7]) = Except.error () ∧
    UnserializeAction (serLE 4 3) = Except.ok CAction.nil ∧
    DecodeAction 10 (fun _ => 10)
      ⟨99, [(1, 0)], [⟨0, [106, 2, 9, 9]⟩, ⟨0, []⟩]⟩ = Except.error () :=
  ⟨rfl, rfl, rfl, rfl, rfl, rfl⟩

/-- Claim C9: the state produced by `DisconnectBlock` depends only on the
height and the prior state, never on the block argument (the source reads
`blk` only to log its hash). -/
theorem c9_disconnect_ignores_block (plotid : Nat → Nat) (poc21 : Bool)
    (height : Int) (b1 b2 : List CTx) (s : CRelationView) :
    CRelationView.DisconnectBlock plotid poc21 height b1 s =
      CRelationView.DisconnectBlock plotid poc21 height b2 s := rfl

/-- Claim C2 evaluated at the failing input: connect bind(10→20) at height
1, unbind(10) at height 2, bind(10→30) at height 3 from the empty state,
then disconnect height 3.  The highest-height history entry of identity 10
is the unbind marker at height 2, so invariant I1 requires `relationKeyIDTip`
to contain no entry for 10 — but `removeRelationHistory` restores the tip by
assignment (`relationKeyIDTip[from] = prev->second`, actiondb.cpp:280)
without checking for the unbind marker, leaving the entry `10 ↦ CKeyID()`. -/
theorem c2_i1_violation_eval :
    CRelationView.DisconnectBlock (fun n => n) true 3 []
      (ConnectBlockActions (fun n => n) true 3 [(3, CAction.bind 10 30)]
        (ConnectBlockActions (fun n => n) true 2 [(2, CAction.unbind 10)]
          (ConnectBlockActions (fun n => n) true 1 [(1, CAction.bind 10 20)]
            ⟨[], [], []⟩))) =
      ⟨[], [(10, nullKeyID)], [(10, [(1, 20), (2, nullKeyID)])]⟩ := by decide

theorem serialize_take4_nil : (SerializeAction CAction.nil).take 4 = [0, 0, 0, 0] := rfl

theorem serialize_take4_bind (f t : Nat) :
    (SerializeAction (CAction.bind f t)).take 4 = [1, 0, 0, 0] := by
  show ((serLE 4 1 ++ (serLE 20 f ++ serLE 20 t)).take 4) = _
  rw [List.take_left' (serLE_length 4 1)]
  rfl

theorem serialize_take4_unbind (f : Nat) :
    (SerializeAction (CAction.unbind f)).take 4 = [2, 0, 0, 0] := by
  show ((serLE 4 2 ++ serLE 20 f).take 4) = _
  rw [List.take_left' (serLE_length 4 2)]
  rfl

theorem serLE_inj (len n m : Nat) (hn : n < 256 ^ len) (hm : m < 256 ^ len)
    (h : serLE len n = serLE len m) : n = m := by
  have := congrArg deLE h
  rw [deLE_serLE len n hn, deLE_serLE len m hm] at this
  exact this

/-- The action encoding is injective on in-range actions (needed for the
"altered action" half of the sign/verify contract: a different action gives
a different digest). -/
theorem serializeAction_inj (a b : CAction) (ha : ActionWF a) (hb : ActionWF b)
    (h : SerializeAction a = SerializeAction b) : a = b := by
  have h4 := congrArg (List.take 4) h
  cases a with
  | nil =>
    cases b with
    | nil => rfl
    | bind f t => rw [serialize_take4_nil, serialize_take4_bind] at h4; simp at h4
    | unbind f => rw [serialize_take4_nil, serialize_take4_unbind] at h4; simp at h4
  | bind f t =>
    cases b with
    | nil => rw [serialize_take4_bind, serialize_take4_nil] at h4; simp at h4
    | bind f' t' =>
      obtain ⟨hf, ht⟩ := ha
      obtain ⟨hf', ht'⟩ := hb
      have h0 : serLE 4 1 ++ (serLE 20 f ++ serLE 20 t) =
          serLE 4 1 ++ (serLE 20 f' ++ serLE 20 t') := h
      have h' : serLE 20 f ++ serLE 20 t = serLE 20 f' ++ serLE 20 t' :=
        (List.append_inj h0 rfl).2
      have hff : serLE 20 f = serLE 20 f' ∧ serLE 20 t = serLE 20 t' :=
        List.append_inj h' (by rw [serLE_length, serLE_length])
      rw [serLE_inj 20 f f' (by simpa using hf) (by simpa using hf') hff.1,
          serLE_inj 20 t t' (by simpa using ht) (by simpa using ht') hff.2]
    | unbind f' => rw [serialize_take4_bind, serialize_take4_unbind] at h4; simp at h4
  | unbind f =>
    cases b with
    | nil => rw [serialize_take4_unbind, serialize_take4_nil] at h4; simp at h4
    | bind f' t' => rw [serialize_take4_unbind, serialize_take4_bind] at h4; simp at h4
    | unbind f' =>
      have h0 : serLE 4 2 ++ serLE 20 f = serLE 4 2 ++ serLE 20 f' := h
      have hff : serLE 20 f = serLE 20 f' := (List.append_inj h0 rfl).2
      rw [serLE_inj 20 f f' (by simpa using ha) (by simpa using hb) hff]

/-- Claim C4 (sign/verify correctness, against the spec-modelled idealised
recoverable-signature primitives): verifying an action's own signature
succeeds exactly when the action is a bind or unbind whose `from` field is
the identity of the signing key's public key; verification fails for any
altered in-range action, any altered outpoint, and always for `Nil`. -/
theorem c4_sign_verify (out out' : COutPoint) (a a' : CAction) (key : Nat)
    (sig : CompactSig) (ha : ActionWF a) (ha' : ActionWF a') :
    (VerifyAction RecoverCompact out a (SignAction out a key) = true ↔
      actionFrom a = some (pubKeyGetID (CPubKeyOf key))) ∧
    (a' ≠ a → VerifyAction RecoverCompact out a' (SignAction out a key) = false) ∧
    (out' ≠ out → VerifyAction RecoverCompact out' a (SignAction out a key) = false) ∧
    VerifyAction RecoverCompact out CAction.nil sig = false := by
  refine ⟨?_, ?_, ?_, ?_⟩
  · cases a with
    | nil => simp [VerifyAction, SignAction, SignCompact, RecoverCompact, actionFrom]
    | bind f t =>
      simp [VerifyAction, SignAction, SignCompact, RecoverCompact, actionFrom]
    | unbind f =>
      simp [VerifyAction, SignAction, SignCompact, RecoverCompact, actionFrom]
  · intro hne
    have hser : SerializeAction a' ≠ SerializeAction a := by
      intro he
      exact hne (serializeAction_inj a' a ha' ha he)
    have hrec : RecoverCompact (SerializeAction a', out) (SignAction out a key) = none := by
      simp only [RecoverCompact, SignAction, SignCompact]
      rw [if_neg (fun he => hser (congrArg Prod.fst he).symm)]
    simp only [VerifyAction, hrec]
  · intro hne
    have hrec : RecoverCompact (SerializeAction a, out') (SignAction out a key) = none := by
      simp only [RecoverCompact, SignAction, SignCompact]
      rw [if_neg (fun he => hne (congrArg Prod.snd he).symm)]
    simp only [VerifyAction, hrec]
  · unfold VerifyAction
    cases RecoverCompact (SerializeAction CAction.nil, out) sig <;> rfl

/-- Witness for C4 at concrete inputs. -/
theorem c4_sign_verify_witness :
    ((VerifyAction RecoverCompact (3, 0) (CAction.bind 5 6)
        (SignAction (3, 0) (CAction.bind 5 6) 5) = true ↔
      actionFrom (CAction.bind 5 6) = some (pubKeyGetID (CPubKeyOf 5))) ∧
    (CAction.unbind 5 ≠ CAction.bind 5 6 →
      VerifyAction RecoverCompact (3, 0) (CAction.unbind 5)
        (SignAction (3, 0) (CAction.bind 5 6) 5) = false) ∧
    ((4, 0) ≠ ((3, 0) : COutPoint) →
      VerifyAction RecoverCompact (4, 0) (CAction.bind 5 6)
        (SignAction (3, 0) (CAction.bind 5 6) 5) = false) ∧
    VerifyAction RecoverCompact (3, 0) CAction.nil
      (SignAction (3, 0) (CAction.bind 5 6) 5) = false) :=
  c4_sign_verify (3, 0) (4, 0) (CAction.bind 5 6) (CAction.unbind 5) 5
    (SignAction (3, 0) (CAction.bind 5 6) 5) (by decide) (by decide)

/-- Claim C7 (fee gate): whenever the summed input coin values minus the
total output value differ from the consensus action fee, `DecodeAction`
yields the `Nil` action (and touches no signature bytes), whatever the
transaction's scripts contain. -/
theorem c7_fee_gate (nActionFee : Int) (coins : COutPoint → Int) (tx : CTx)
    (h : sumInputValues coins tx.vin - tx.GetValueOut ≠ nActionFee) :
    DecodeAction nActionFee coins tx = Except.ok (CAction.nil, []) := by
  unfold DecodeAction
  by_cases h1 : (tx.IsCoinBase || tx.IsNull) = true
  · rw [if_pos h1]
  · rw [if_neg h1]
    split
    · rename_i o1 o2 heq
      by_cases h2 : o1.nValue ≠ 0 ∧ o2.nValue ≠ 0
      · rw [if_pos h2]
      · rw [if_neg h2, if_pos h]
    · rfl

/-- Witness for C7: a two-output zero-value transaction whose fee is off by
one unit decodes to `Nil`. -/
theorem c7_fee_gate_witness :
    sumInputValues (fun _ => 11) [(1, 0)] -
        CTx.GetValueOut ⟨99, [(1, 0)], [⟨0, [106]⟩, ⟨0, []⟩]⟩ ≠ 10 ∧
    DecodeAction 10 (fun _ => 11) ⟨99, [(1, 0)], [⟨0, [106]⟩, ⟨0, []⟩]⟩ =
      Except.ok (CAction.nil, []) :=
  ⟨by decide, c7_fee_gate 10 (fun _ => 11) ⟨99, [(1, 0)], [⟨0, [106]⟩, ⟨0, []⟩]⟩
    (by decide)⟩

theorem acceptAction_state_ignores_writeOk (plotid : Nat → Nat)
    (poc21 writeOk : Bool) (height : Int) (txid : Nat) (action : CAction)
    (s : CRelationView) :
    (CRelationView.AcceptAction plotid poc21 writeOk height txid action s).2.1 =
      (CRelationView.AcceptAction plotid poc21 true height txid action s).2.1 := by
  cases action <;> rfl

/-- Claim C8 as amended: `AcceptAction` returns failure exactly when the
underlying batch write fails (its boolean result is the `WriteBatch`
result), but `ConnectBlock` does not surface persistence failures — it is
`void` in the source, logs the failed `AcceptAction`/`WriteRelationsToDisk`
results, and produces the same state whether or not the store accepts the
writes. -/
theorem c8_accept_reports_connect_swallows (nActionFee : Int)
    (coins : COutPoint → Int) (recover : ActionDigest → List Nat → Option Nat)
    (plotid : Nat → Nat) (poc21 writeOk : Bool) (height : Int)
    (blk : List CTx) (s : CRelationView) (txid : Nat) (action : CAction) :
    (CRelationView.AcceptAction plotid poc21 writeOk height txid action s).1 =
      writeOk ∧
    ConnectBlock nActionFee coins recover plotid poc21 writeOk height blk s =
      ConnectBlock nActionFee coins recover plotid poc21 true height blk s := by
  constructor
  · cases action <;> rfl
  · induction blk generalizing s with
    | nil => rfl
    | cons tx rest ih =>
      cases hd : DecodeAction nActionFee coins tx with
      | error e => simp [ConnectBlock, hd, bind, Except.bind]
      | ok p =>
        obtain ⟨action, vchSig⟩ := p
        simp only [ConnectBlock, hd, bind, Except.bind]
        rw [acceptAction_state_ignores_writeOk]
        exact ih _

/-- Claim C8 evaluated at a concrete failing store: a block carrying one
valid action connects to the identical `Except.ok` state whether every
batch write fails (`writeOk = false`) or succeeds — the caller receives no
failure result — even though `AcceptAction` itself reported the failure. -/
theorem c8_counterexample_eval :
    ConnectBlock 10 (fun _ => 10) (fun _ _ => some 5) (fun n => n) false false 1
      [⟨99, [(1, 0)],
        [⟨0, [106] ++ pushData (SerializeAction (CAction.bind 5 6) ++
          List.replicate 65 7)⟩, ⟨0, []⟩]⟩] ⟨[], [], []⟩ =
      ConnectBlock 10 (fun _ => 10) (fun _ _ => some 5) (fun n => n) false true 1
        [⟨99, [(1, 0)],
          [⟨0, [106] ++ pushData (SerializeAction (CAction.bind 5 6) ++
            List.replicate 65 7)⟩, ⟨0, []⟩]⟩] ⟨[], [], []⟩ ∧
    ConnectBlock 10 (fun _ => 10) (fun _ _ => some 5) (fun n => n) false false 1
      [⟨99, [(1, 0)],
        [⟨0, [106] ++ pushData (SerializeAction (CAction.bind 5 6) ++
          List.replicate 65 7)⟩, ⟨0, []⟩]⟩] ⟨[], [], []⟩ =
      Except.ok ⟨[(5, 6)], [(5, 6)], [(5, [(1, 6)])]⟩ ∧
    (CRelationView.AcceptAction (fun n => n) false false 1 99
      (CAction.bind 5 6) ⟨[], [], []⟩).1 = false :=
  ⟨rfl, rfl, rfl⟩

theorem loadRelation_eq_accept_bind (plotid : Nat → Nat) (poc21 : Bool)
    (height : Int) (txid f t : Nat) (s : CRelationView) (ht : t ≠ nullKeyID) :
    CRelationView.loadRelation plotid poc21 height (txid, f, t) s =
      (CRelationView.AcceptAction plotid poc21 true height txid
        (CAction.bind f t) s).2.1 := by
  unfold CRelationView.loadRelation CRelationView.AcceptAction
  rw [if_pos ht]

theorem loadRelation_eq_accept_unbind (plotid : Nat → Nat) (poc21 : Bool)
    (height : Int) (txid f : Nat) (s : CRelationView) :
    CRelationView.loadRelation plotid poc21 height (txid, f, nullKeyID) s =
      (CRelationView.AcceptAction plotid poc21 true height txid
        (CAction.unbind f) s).2.1 := by
  unfold CRelationView.loadRelation CRelationView.AcceptAction
  rw [if_neg (by simp)]

/-- Claim C3 as amended: replaying a height's persisted change list through
`LoadRelationFromDisk` produces the same in-memory ledger state (both tip
maps and the history map) as dispatching the original actions through the
connect-time `AcceptAction` logic with signature verification skipped —
provided no persisted bind targets the null identity.  (A bind to
`CKeyID()` is stored as `(from, CKeyID())`, which the loader replays as an
unbind, diverging — see the counterexample.) -/
theorem c3_load_replays_connect (plotid : Nat → Nat) (poc21 : Bool)
    (height : Int) (acts : List (Nat × CAction)) (s : CRelationView)
    (hb : ∀ p ∈ acts, BindTargetNonNull p.2) :
    (CRelationView.LoadRelationFromDisk plotid poc21 height
      (some (acts.filterMap relOf)) s).2 =
      ConnectBlockActions plotid poc21 height acts s := by
  induction acts generalizing s with
  | nil => rfl
  | cons p rest ih =>
    have hrest : ∀ q ∈ rest, BindTargetNonNull q.2 :=
      fun q hq => hb q (List.mem_cons_of_mem p hq)
    obtain ⟨txid, a⟩ := p
    cases a with
    | nil =>
      simp only [List.filterMap_cons, relOf]
      exact ih s hrest
    | bind f t =>
      have ht : t ≠ nullKeyID := hb (txid, CAction.bind f t) (by simp)
      simp only [List.filterMap_cons, relOf]
      show (CRelationView.LoadRelationFromDisk plotid poc21 height
        (some ((txid, f, t) :: rest.filterMap relOf)) s).2 = _
      simp only [CRelationView.LoadRelationFromDisk, List.foldl_cons]
      rw [loadRelation_eq_accept_bind plotid poc21 height txid f t s ht]
      exact ih _ hrest
    | unbind f =>
      simp only [List.filterMap_cons, relOf]
      show (CRelationView.LoadRelationFromDisk plotid poc21 height
        (some ((txid, f, nullKeyID) :: rest.filterMap relOf)) s).2 = _
      simp only [CRelationView.LoadRelationFromDisk, List.foldl_cons]
      rw [loadRelation_eq_accept_unbind plotid poc21 height txid f s]
      exact ih _ hrest

/-- Witness for C3 at a concrete change list (bind then unbind). -/
theorem c3_load_replays_connect_witness :
    (CRelationView.LoadRelationFromDisk (fun n => n) false 4
      (some ([(1, CAction.bind 5 6), (2, CAction.unbind 7)].filterMap relOf))
      ⟨[], [], []⟩).2 =
      ConnectBlockActions (fun n => n) false 4
        [(1, CAction.bind 5 6), (2, CAction.unbind 7)] ⟨[], [], []⟩ :=
  c3_load_replays_connect (fun n => n) false 4
    [(1, CAction.bind 5 6), (2, CAction.unbind 7)] ⟨[], [], []⟩ (by decide)

/-- Counterexample to C3 as stated: a bind to the null identity is accepted
at connect time with a tip entry `5 ↦ CKeyID()`, but its persisted change
`(5, CKeyID())` is replayed by `LoadRelationFromDisk` through the unbind
path, which erases the tip entry — the reloaded state differs structurally
from the connect-time state. -/
theorem c3_counterexample_bind_null :
    (CRelationView.LoadRelationFromDisk (fun n => n) true 5
        (some [(9, 7, nullKeyID)]) ⟨[], [], []⟩).2 ≠
      ConnectBlockActions (fun n => n) true 5 [(9, CAction.bind 7 nullKeyID)]
        ⟨[], [], []⟩ ∧
    List.filterMap relOf [(9, CAction.bind 7 nullKeyID)] =
      [(9, 7, nullKeyID)] := by decide

/-! ## Script-number and script-parsing lemmas (for ticket.cpp) -/

theorem absBytes_zero : absBytes 0 = [] := by
  unfold absBytes
  rfl

theorem absBytes_succ (m : Nat) (h : m ≠ 0) :
    absBytes m = m % 256 :: absBytes (m / 256) := by
  conv_lhs => unfold absBytes
  rw [dif_neg h]

theorem deLE_absBytes (m : Nat) : deLE (absBytes m) = m := by
  induction m using Nat.strong_induction_on with
  | _ m ih =>
    by_cases h : m = 0
    · subst h; simp [absBytes_zero, deLE]
    · rw [absBytes_succ m h]
      simp only [deLE]
      rw [ih (m / 256) (Nat.div_lt_self (Nat.pos_of_ne_zero h) (by omega))]
      omega

theorem absBytes_ne_nil (m : Nat) (h : m ≠ 0) : absBytes m ≠ [] := by
  rw [absBytes_succ m h]
  simp

theorem getLast?_cons_ne_nil {α : Type} (a : α) (l : List α) (h : l ≠ []) :
    (a :: l).getLast? = l.getLast? := by
  cases l with
  | nil => exact absurd rfl h
  | cons b t => simp [List.getLast?_cons_cons]

theorem absBytes_getLast_facts (m : Nat) (h : m ≠ 0) :
    ∀ b, (absBytes m).getLast? = some b → b ≠ 0 ∧ b < 256 := by
  induction m using Nat.strong_induction_on with
  | _ m ih =>
    intro b hb
    rw [absBytes_succ m h] at hb
    by_cases hq : m / 256 = 0
    · rw [hq, absBytes_zero] at hb
      simp only [List.getLast?_singleton] at hb
      have hm : m < 256 := by omega
      rw [Nat.mod_eq_of_lt hm] at hb
      cases hb
      exact ⟨h, hm⟩
    · rw [getLast?_cons_ne_nil _ _ (absBytes_ne_nil _ hq)] at hb
      exact ih (m / 256) (Nat.div_lt_self (Nat.pos_of_ne_zero h) (by omega)) hq b hb

theorem absBytes_length_le (m k : Nat) (h : m < 256 ^ k) :
    (absBytes m).length ≤ k := by
  induction k generalizing m with
  | zero =>
    simp only [Nat.pow_zero, Nat.lt_one_iff] at h
    subst h
    simp [absBytes_zero]
  | succ k ih =>
    by_cases hm : m = 0
    · subst hm; simp [absBytes_zero]
    · rw [absBytes_succ m hm]
      simp only [List.length_cons]
      have : m / 256 < 256 ^ k := by
        rw [Nat.pow_succ] at h
        exact Nat.div_lt_of_lt_mul (by omega)
      exact Nat.succ_le_succ (ih (m / 256) this)

theorem absBytes_getLast_lower (m : Nat) :
    ∀ b, (absBytes m).getLast? = some b →
      b * 256 ^ ((absBytes m).length - 1) ≤ m := by
  induction m using Nat.strong_induction_on with
  | _ m ih =>
    intro b hb
    by_cases h : m = 0
    · subst h; rw [absBytes_zero] at hb; simp at hb
    · rw [absBytes_succ m h] at hb
      rw [absBytes_succ m h]
      by_cases hq : m / 256 = 0
      · rw [hq, absBytes_zero] at hb
        simp only [List.getLast?_singleton] at hb
        cases hb
        simp [absBytes_zero, hq]
        omega
      · rw [getLast?_cons_ne_nil _ _ (absBytes_ne_nil _ hq)] at hb
        have hlow := ih (m / 256)
          (Nat.div_lt_self (Nat.pos_of_ne_zero h) (by omega)) b hb
        have hlen : (m % 256 :: absBytes (m / 256)).length - 1 =
            ((absBytes (m / 256)).length - 1) + 1 := by
          have := absBytes_ne_nil (m / 256) hq
          cases hx : absBytes (m / 256) with
          | nil => exact absurd hx this
          | cons c t => simp [hx]
        rw [hlen, Nat.pow_succ]
        calc b * (256 ^ ((absBytes (m / 256)).length - 1) * 256)
            = (b * 256 ^ ((absBytes (m / 256)).length - 1)) * 256 := by ring
          _ ≤ (m / 256) * 256 := Nat.mul_le_mul_right 256 hlow
          _ ≤ m := by omega

theorem deLE_append_zero (l : List Nat) : deLE (l ++ [0]) = deLE l := by
  induction l with
  | nil => simp [deLE]
  | cons b t ih => simp [deLE, ih]

/-- Characterisation of the serializer on positive values: the magnitude
bytes, padded with a zero sign byte when the top magnitude byte has the
sign bit set. -/
theorem cScriptNumSerialize_pos_char (n : Int) (hpos : 0 < n) (b : Nat)
    (hb : (absBytes n.natAbs).getLast? = some b) :
    CScriptNumSerialize n =
      if 128 ≤ b then absBytes n.natAbs ++ [0] else absBytes n.natAbs := by
  unfold CScriptNumSerialize
  rw [if_neg (by omega)]
  simp only [hb]
  by_cases h128 : 128 ≤ b
  · rw [if_pos h128, if_pos h128, if_neg (by omega : ¬ n < 0)]
  · rw [if_neg h128, if_neg h128, if_neg (by omega : ¬ n < 0)]

/-- Decoding the minimal-encoding constructor on the serializer's output of
a positive 31-bit value recovers the value. -/
theorem cScriptNum4_roundtrip_pos (n : Int) (hpos : 0 < n)
    (hmax : n < 2 ^ 31) : CScriptNum4 (CScriptNumSerialize n) = Except.ok n := by
  have hne : n.natAbs ≠ 0 := by omega
  have habs : (n.natAbs : Int) = n := Int.natAbs_of_nonneg (by omega)
  have hlt : n.natAbs < 2 ^ 31 := by omega
  obtain ⟨b, hb⟩ : ∃ b, (absBytes n.natAbs).getLast? = some b := by
    cases hx : (absBytes n.natAbs).getLast? with
    | none =>
      exact absurd (List.getLast?_eq_none_iff.mp hx) (absBytes_ne_nil _ hne)
    | some b => exact ⟨b, rfl⟩
  obtain ⟨hbne, hblt⟩ := absBytes_getLast_facts n.natAbs hne b hb
  have hlen4 : (absBytes n.natAbs).length ≤ 4 :=
    absBytes_length_le n.natAbs 4 (by omega)
  have hser := cScriptNumSerialize_pos_char n hpos b hb
  by_cases h128 : 128 ≤ b
  · -- padded case: the magnitude has at most 3 bytes, a zero sign byte is
    -- appended, and the minimality check passes through the second branch
    rw [hser, if_pos h128]
    have hlen3 : (absBytes n.natAbs).length ≤ 3 := by
      rcases Nat.lt_or_ge (absBytes n.natAbs).length 4 with h4 | h4
      · omega
      · exfalso
        have hl4 : (absBytes n.natAbs).length = 4 := by omega
        have := absBytes_getLast_lower n.natAbs b hb
        rw [hl4] at this
        have : 128 * 256 ^ 3 ≤ n.natAbs := le_trans
          (Nat.mul_le_mul_right _ h128) this
        omega
    unfold CScriptNum4
    rw [if_neg (by simp; omega)]
    simp only [List.getLast?_concat]
    rw [if_true]
    rw [List.dropLast_concat]
    simp only [hb]
    rw [if_neg (by omega)]
    unfold CScriptNumValue
    simp only [List.getLast?_concat]
    rw [if_neg (by norm_num)]
    rw [deLE_append_zero, deLE_absBytes]
    simp only [Int.ofNat_eq_natCast, habs]
  · -- unpadded case: the top byte is nonzero and below 128, so the
    -- minimality check takes the else branch directly
    rw [hser, if_neg h128]
    unfold CScriptNum4
    rw [if_neg (by omega)]
    simp only [hb]
    rw [if_neg (by omega)]
    unfold CScriptNumValue
    simp only [hb]
    rw [if_neg (by omega)]
    rw [deLE_absBytes]
    simp only [Int.ofNat_eq_natCast, habs]

theorem getOp_pushData_small (d tail : List Nat) (h : d.length < 76) :
    GetOp (pushData d ++ tail) = some (d.length, d, tail) := by
  unfold pushData
  rw [if_pos (by simpa [OP_PUSHDATA1] using h)]
  show GetOp (d.length :: (d ++ tail)) = _
  simp only [GetOp]
  rw [if_pos (by simpa [OP_PUSHDATA1] using h)]
  rw [if_pos (by simp)]
  rw [List.take_left' rfl, List.drop_left' rfl]

theorem getOp_plain_op (op : Nat) (rest : List Nat) (h76 : 78 < op) :
    GetOp (op :: rest) = some (op, [], rest) := by
  simp only [GetOp]
  rw [if_neg (by simp [OP_PUSHDATA1]; omega)]
  rw [if_neg (by simp [OP_PUSHDATA1]; omega)]
  rw [if_neg (by simp [OP_PUSHDATA2]; omega)]
  rw [if_neg (by simp [OP_PUSHDATA4]; omega)]

/-- Claim C10 (ticket script round-trip): for every 33-byte public key and
every positive `int` lock height, parsing the generated ticket script
succeeds and returns exactly the embedded key. -/
theorem c10_ticket_script_roundtrip (k : List Nat) (h33 : k.length = 33)
    (lockHeight : Int) (hpos : 0 < lockHeight) (hmax : lockHeight < 2 ^ 31) :
    GetPublicKeyFromScript (GenerateTicketScript k lockHeight) =
      Except.ok (some k) := by
  have hne : lockHeight.natAbs ≠ 0 := by omega
  obtain ⟨b, hb⟩ : ∃ b, (absBytes lockHeight.natAbs).getLast? = some b := by
    cases hx : (absBytes lockHeight.natAbs).getLast? with
    | none =>
      exact absurd (List.getLast?_eq_none_iff.mp hx) (absBytes_ne_nil _ hne)
    | some b => exact ⟨b, rfl⟩
  have habs4 : (absBytes lockHeight.natAbs).length ≤ 4 :=
    absBytes_length_le lockHeight.natAbs 4 (by omega)
  have hsn : (CScriptNumSerialize lockHeight).length < 76 := by
    rw [cScriptNumSerialize_pos_char lockHeight hpos b hb]
    by_cases h128 : 128 ≤ b
    · rw [if_pos h128]
      simp only [List.length_append, List.length_singleton]
      omega
    · rw [if_neg h128]
      omega
  have hcltv : ∀ r : List Nat,
      GetOp (OP_CHECKLOCKTIMEVERIFY :: r) = some (OP_CHECKLOCKTIMEVERIFY, [], r) :=
    fun r => getOp_plain_op _ r (by norm_num [OP_CHECKLOCKTIMEVERIFY])
  have hdrop : ∀ r : List Nat,
      GetOp (OP_DROP :: r) = some (OP_DROP, [], r) :=
    fun r => getOp_plain_op _ r (by norm_num [OP_DROP])
  unfold GenerateTicketScript
  rw [List.append_assoc, List.append_assoc]
  rw [show [OP_CHECKLOCKTIMEVERIFY, OP_DROP] ++ (pushData k ++ [OP_CHECKSIG]) =
    OP_CHECKLOCKTIMEVERIFY :: (OP_DROP :: (pushData k ++ [OP_CHECKSIG])) from rfl]
  unfold GetPublicKeyFromScript
  simp only [getOp_pushData_small _ _ hsn]
  simp only [cScriptNum4_roundtrip_pos lockHeight hpos hmax, bind, Except.bind]
  rw [if_pos hpos]
  simp only [hcltv]
  rw [if_true]
  simp only [hdrop]
  rw [if_true]
  simp only [getOp_pushData_small k [OP_CHECKSIG] (by omega)]
  simp only [h33]
  rw [if_true]

/-- Witness for C10 at a concrete 33-byte key and lock height 500. -/
theorem c10_ticket_script_roundtrip_witness :
    GetPublicKeyFromScript
      (GenerateTicketScript (2 :: List.replicate 32 9) 500) =
      Except.ok (some (2 :: List.replicate 32 9)) :=
  c10_ticket_script_roundtrip (2 :: List.replicate 32 9) (by decide) 500
    (by decide) (by decide)

/-! ## Ledger invariant lemmas for the connect/disconnect inverse pair -/

theorem smap_insert_ne_nil {K V : Type} [LinearOrder K]
    (l : List (K × V)) (k : K) (v : V) : SMap.insert l k v ≠ [] := by
  cases l with
  | nil => simp [SMap.insert]
  | cons e t =>
    simp only [SMap.insert]
    by_cases h1 : k < e.1
    · rw [if_pos h1]; simp
    · rw [if_neg h1]
      by_cases h2 : k = e.1
      · rw [if_pos h2]; simp
      · rw [if_neg h2]; simp

theorem hist_lookup_some_of_ne_nil (s : CRelationView) (f : Nat)
    (h : histOf s f ≠ []) :
    SMap.lookup s.relationsHistoryMap f = some (histOf s f) := by
  unfold histOf at h ⊢
  cases hx : SMap.lookup s.relationsHistoryMap f with
  | none => rw [hx] at h; simp at h
  | some l => simp [hx]

theorem hist_lookup_none_of_nil (s : CRelationView) (f : Nat)
    (hwf : WFState s) (h : histOf s f = []) :
    SMap.lookup s.relationsHistoryMap f = none := by
  unfold histOf at h
  cases hx : SMap.lookup s.relationsHistoryMap f with
  | none => rfl
  | some l =>
    rw [hx] at h
    simp only [Option.getD_some] at h
    subst h
    exact absurd (hwf.2.2.2 _ (smap_mem_of_lookup _ _ _ hx)).2 (by simp)

theorem histOf_wf (s : CRelationView) (f : Nat) (hwf : WFState s) :
    SMap.WF (histOf s f) := by
  unfold histOf
  cases hx : SMap.lookup s.relationsHistoryMap f with
  | none => exact smap_wf_nil
  | some l =>
    simp only [Option.getD_some]
    exact (hwf.2.2.2 _ (smap_mem_of_lookup _ _ _ hx)).1

/-- The state component of an accepted bind. -/
theorem accept_bind_eq (plotid : Nat → Nat) (poc21 : Bool) (height : Int)
    (txid f t : Nat) (s : CRelationView) :
    (CRelationView.AcceptAction plotid poc21 true height txid
        (CAction.bind f t) s).2.1 =
      ⟨if poc21 then s.relationTip
        else SMap.insert s.relationTip (plotid f) (plotid t),
       SMap.insert s.relationKeyIDTip f t,
       SMap.insert s.relationsHistoryMap f
         (SMap.insert (histOf s f) height t)⟩ := by
  cases poc21 <;> rfl

/-- The state component of an accepted unbind. -/
theorem accept_unbind_eq (plotid : Nat → Nat) (poc21 : Bool) (height : Int)
    (txid f : Nat) (s : CRelationView) :
    (CRelationView.AcceptAction plotid poc21 true height txid
        (CAction.unbind f) s).2.1 =
      ⟨if poc21 then s.relationTip
        else SMap.erase s.relationTip (plotid f),
       SMap.erase s.relationKeyIDTip f,
       SMap.insert s.relationsHistoryMap f
         (SMap.insert (histOf s f) height nullKeyID)⟩ := by
  cases poc21 <;> rfl

theorem accept_nil_eq (plotid : Nat → Nat) (poc21 : Bool) (height : Int)
    (txid : Nat) (s : CRelationView) :
    (CRelationView.AcceptAction plotid poc21 true height txid
        CAction.nil s).2.1 = s := rfl

theorem tipOfList_concat (l : List (Int × Nat)) (h : Int) (v : Nat) :
    tipOfList (l ++ [(h, v)]) = if v = nullKeyID then none else some v := by
  unfold tipOfList
  rw [List.getLast?_concat]

theorem accept_preserves_wf (plotid : Nat → Nat) (poc21 : Bool) (height : Int)
    (txid : Nat) (a : CAction) (s : CRelationView) (hwf : WFState s) :
    WFState (CRelationView.AcceptAction plotid poc21 true height txid a s).2.1 := by
  obtain ⟨hw1, hw2, hw3, hw4⟩ := hwf
  cases a with
  | nil => exact ⟨hw1, hw2, hw3, hw4⟩
  | bind f t =>
    rw [accept_bind_eq]
    refine ⟨?_, smap_wf_insert _ _ _ hw2, smap_wf_insert _ _ _ hw3, ?_⟩
    · by_cases hp : poc21
      · rw [if_pos hp]; exact hw1
      · rw [if_neg hp]; exact smap_wf_insert _ _ _ hw1
    · intro e he
      rcases smap_mem_insert _ _ _ _ he with hx | hx
      · exact hw4 e hx
      · rw [hx]
        exact ⟨smap_wf_insert _ _ _ (histOf_wf s f ⟨hw1, hw2, hw3, hw4⟩),
          smap_insert_ne_nil _ _ _⟩
  | unbind f =>
    rw [accept_unbind_eq]
    refine ⟨?_, smap_wf_erase _ _ hw2, smap_wf_insert _ _ _ hw3, ?_⟩
    · by_cases hp : poc21
      · rw [if_pos hp]; exact hw1
      · rw [if_neg hp]; exact smap_wf_erase _ _ hw1
    · intro e he
      rcases smap_mem_insert _ _ _ _ he with hx | hx
      · exact hw4 e hx
      · rw [hx]
        exact ⟨smap_wf_insert _ _ _ (histOf_wf s f ⟨hw1, hw2, hw3, hw4⟩),
          smap_insert_ne_nil _ _ _⟩

theorem accept_preserves_beloweq (plotid : Nat → Nat) (poc21 : Bool)
    (height : Int) (txid : Nat) (a : CAction) (s : CRelationView)
    (hwf : WFState s) (hb : HeightsBelowEq s height) :
    HeightsBelowEq
      (CRelationView.AcceptAction plotid poc21 true height txid a s).2.1
      height := by
  have hins : ∀ f t, ∀ x ∈ SMap.insert (histOf s f) height t, x.1 ≤ height := by
    intro f t x hx
    rcases smap_mem_insert _ _ _ _ hx with hm | hm
    · unfold histOf at hm
      cases hl : SMap.lookup s.relationsHistoryMap f with
      | none => rw [hl] at hm; simp at hm
      | some l =>
        rw [hl] at hm
        simp only [Option.getD_some] at hm
        exact hb _ (smap_mem_of_lookup _ _ _ hl) x hm
    · rw [hm]
  cases a with
  | nil => exact hb
  | bind f t =>
    rw [accept_bind_eq]
    intro e he x hx
    rcases smap_mem_insert _ _ _ _ he with hm | hm
    · exact hb e hm x hx
    · rw [hm] at hx
      exact hins f t x hx
  | unbind f =>
    rw [accept_unbind_eq]
    intro e he x hx
    rcases smap_mem_insert _ _ _ _ he with hm | hm
    · exact hb e hm x hx
    · rw [hm] at hx
      exact hins f nullKeyID x hx

theorem histOf_le_of_beloweq (s : CRelationView) (h : Int)
    (hb : HeightsBelowEq s h) (f : Nat) : ∀ x ∈ histOf s f, x.1 ≤ h := by
  intro x hx
  unfold histOf at hx
  cases hl : SMap.lookup s.relationsHistoryMap f with
  | none => rw [hl] at hx; simp at hx
  | some l =>
    rw [hl] at hx
    simp only [Option.getD_some] at hx
    exact hb _ (smap_mem_of_lookup _ _ _ hl) x hx

theorem histOf_lt_of_below (s : CRelationView) (h : Int)
    (hb : HeightsBelow s h) (f : Nat) : ∀ x ∈ histOf s f, x.1 < h := by
  intro x hx
  unfold histOf at hx
  cases hl : SMap.lookup s.relationsHistoryMap f with
  | none => rw [hl] at hx; simp at hx
  | some l =>
    rw [hl] at hx
    simp only [Option.getD_some] at hx
    exact hb _ (smap_mem_of_lookup _ _ _ hl) x hx

theorem insert_hist_top (s : CRelationView) (height : Int) (f v : Nat)
    (hwf : WFState s) (hb : HeightsBelowEq s height) :
    SMap.insert (histOf s f) height v =
      (histOf s f).filter (fun e => decide (e.1 < height)) ++ [(height, v)] :=
  smap_insert_top _ _ _ (histOf_wf s f hwf) (histOf_le_of_beloweq s height hb f)

theorem tipOfList_insert_hist (s : CRelationView) (height : Int) (f v : Nat)
    (hwf : WFState s) (hb : HeightsBelowEq s height) :
    tipOfList (SMap.insert (histOf s f) height v) =
      (if v = nullKeyID then none else some v) ∧
    (SMap.insert (histOf s f) height v).getLast? = some (height, v) := by
  rw [insert_hist_top s height f v hwf hb]
  exact ⟨tipOfList_concat _ _ _, List.getLast?_concat _⟩

theorem accept_preserves_tipapprox (plotid : Nat → Nat) (poc21 : Bool)
    (height : Int) (txid : Nat) (a : CAction) (s : CRelationView)
    (hwf : WFState s) (hb : HeightsBelowEq s height) (hta : TipApprox s) :
    TipApprox (CRelationView.AcceptAction plotid poc21 true height txid a s).2.1 := by
  cases a with
  | nil => exact hta
  | bind f t =>
    rw [accept_bind_eq]
    intro g
    by_cases hg : g = f
    · subst hg
      obtain ⟨htol, hlast⟩ := tipOfList_insert_hist s height g t hwf hb
      simp only [histOf] at htol hlast
      simp only [histOf, smap_lookup_insert_self, Option.getD_some]
      by_cases ht : t = nullKeyID
      · exact Or.inr ⟨⟨(height, t), hlast, ht⟩, by rw [ht]⟩
      · left
        rw [htol, if_neg ht]
    · simp only [histOf, smap_lookup_insert_ne _ _ _ _ hg]
      have := hta g
      simp only [histOf] at this
      exact this
  | unbind f =>
    rw [accept_unbind_eq]
    intro g
    by_cases hg : g = f
    · subst hg
      obtain ⟨htol, _⟩ := tipOfList_insert_hist s height g nullKeyID hwf hb
      simp only [histOf] at htol
      simp only [histOf, smap_lookup_insert_self, Option.getD_some,
        smap_lookup_erase_self _ _ hwf.2.1]
      left
      rw [htol, if_true]
    · simp only [histOf, smap_lookup_insert_ne _ _ _ _ hg,
        smap_lookup_erase_ne _ _ _ hg]
      have := hta g
      simp only [histOf] at this
      exact this

theorem accept_rtip_const_poc21 (plotid : Nat → Nat) (height : Int)
    (txid : Nat) (a : CAction) (s : CRelationView) :
    (CRelationView.AcceptAction plotid true true height txid a s).2.1.relationTip =
      s.relationTip := by
  cases a <;> rfl

theorem accept_preserves_rtippt (plotid : Nat → Nat)
    (hinj : Function.Injective plotid) (height : Int) (txid : Nat)
    (a : CAction) (s : CRelationView) (hwf : WFState s)
    (hr : RtipPt plotid s) :
    RtipPt plotid
      (CRelationView.AcceptAction plotid false true height txid a s).2.1 := by
  obtain ⟨hr1, hr2⟩ := hr
  cases a with
  | nil => exact ⟨hr1, hr2⟩
  | bind f t =>
    rw [accept_bind_eq]
    rw [if_neg (by simp)]
    constructor
    · intro k
      by_cases hk : k = f
      · subst hk
        rw [smap_lookup_insert_self, smap_lookup_insert_self]
        rfl
      · rw [smap_lookup_insert_ne _ _ _ _ (fun hh => hk (hinj hh)),
          smap_lookup_insert_ne _ _ _ _ hk]
        exact hr1 k
    · intro q hq
      rw [smap_lookup_insert_ne _ _ _ _ (fun hh => hq f hh.symm)]
      exact hr2 q hq
  | unbind f =>
    rw [accept_unbind_eq]
    rw [if_neg (by simp)]
    constructor
    · intro k
      by_cases hk : k = f
      · subst hk
        rw [smap_lookup_erase_self _ _ hwf.1, smap_lookup_erase_self _ _ hwf.2.1]
        rfl
      · rw [smap_lookup_erase_ne _ _ _ (fun hh => hk (hinj hh)),
          smap_lookup_erase_ne _ _ _ hk]
        exact hr1 k
    · intro q hq
      rw [smap_lookup_erase_ne _ _ _ (fun hh => hq f hh.symm)]
      exact hr2 q hq

/-- Single accept step preserves the full invariant at the block height. -/
theorem accept_preserves_inv (plotid : Nat → Nat)
    (hinj : Function.Injective plotid) (poc21 : Bool) (height : Int)
    (txid : Nat) (a : CAction) (s : CRelationView)
    (hinv : LedgerInv plotid poc21 s) (hb : HeightsBelowEq s height) :
    LedgerInv plotid poc21
      (CRelationView.AcceptAction plotid poc21 true height txid a s).2.1 ∧
    HeightsBelowEq
      (CRelationView.AcceptAction plotid poc21 true height txid a s).2.1
      height := by
  obtain ⟨hwf, hta, hrt⟩ := hinv
  refine ⟨⟨accept_preserves_wf _ _ _ _ _ _ hwf,
    accept_preserves_tipapprox _ _ _ _ _ _ hwf hb hta, ?_⟩,
    accept_preserves_beloweq _ _ _ _ _ _ hwf hb⟩
  intro hp
  subst hp
  exact accept_preserves_rtippt plotid hinj height txid a s hwf (hrt rfl)

theorem filter_lt_idem (l : List (Int × Nat)) (h : Int) :
    ((l.filter (fun e => decide (e.1 < h))).filter (fun e => decide (e.1 < h))) =
      l.filter (fun e => decide (e.1 < h)) := by
  apply List.filter_eq_self.mpr
  intro a ha
  exact (List.mem_filter.mp ha).2

/-- `removeRelationHistory` when no history entry below the height remains:
erase the identity from all maps. -/
theorem remove_eq_empty (plotid : Nat → Nat) (poc21 : Bool) (height : Int)
    (f : Nat) (s : CRelationView)
    (hrem : (histOf s f).filter (fun e => decide (e.1 < height)) = []) :
    CRelationView.removeRelationHistory plotid poc21 height f s =
      ⟨if poc21 then s.relationTip else SMap.erase s.relationTip (plotid f),
       SMap.erase s.relationKeyIDTip f,
       SMap.erase s.relationsHistoryMap f⟩ := by
  unfold CRelationView.removeRelationHistory
  simp only [histOf] at hrem
  rw [hrem]
  simp

/-- `removeRelationHistory` when entries remain: the pruned list is written
back and the tips point at the greatest remaining entry. -/
theorem remove_eq_prev (plotid : Nat → Nat) (poc21 : Bool) (height : Int)
    (f : Nat) (s : CRelationView) (prev : Int × Nat)
    (hprev : ((histOf s f).filter (fun e => decide (e.1 < height))).getLast? =
      some prev) :
    CRelationView.removeRelationHistory plotid poc21 height f s =
      ⟨if poc21 then s.relationTip
        else SMap.insert s.relationTip (plotid f) (plotid prev.2),
       SMap.insert s.relationKeyIDTip f prev.2,
       SMap.insert s.relationsHistoryMap f
         ((histOf s f).filter (fun e => decide (e.1 < height)))⟩ := by
  unfold CRelationView.removeRelationHistory
  have hne : (histOf s f).filter (fun e => decide (e.1 < height)) ≠ [] := by
    intro hx
    rw [hx] at hprev
    simp at hprev
  simp only [histOf] at hprev hne ⊢
  rw [if_neg (by simpa using hne)]
  simp only [filter_lt_idem, hprev]

theorem remove_hist_lookup_ne (plotid : Nat → Nat) (poc21 : Bool)
    (height : Int) (f g : Nat) (s : CRelationView) (hg : g ≠ f) :
    SMap.lookup
      (CRelationView.removeRelationHistory plotid poc21 height f s).relationsHistoryMap
      g = SMap.lookup s.relationsHistoryMap g := by
  cases hx : ((histOf s f).filter (fun e => decide (e.1 < height))).getLast? with
  | none =>
    rw [remove_eq_empty plotid poc21 height f s (List.getLast?_eq_none_iff.mp hx)]
    exact smap_lookup_erase_ne _ _ _ hg
  | some prev =>
    rw [remove_eq_prev plotid poc21 height f s prev hx]
    exact smap_lookup_insert_ne _ _ _ _ hg

theorem remove_tip_lookup_ne (plotid : Nat → Nat) (poc21 : Bool)
    (height : Int) (f g : Nat) (s : CRelationView) (hg : g ≠ f) :
    SMap.lookup
      (CRelationView.removeRelationHistory plotid poc21 height f s).relationKeyIDTip
      g = SMap.lookup s.relationKeyIDTip g := by
  cases hx : ((histOf s f).filter (fun e => decide (e.1 < height))).getLast? with
  | none =>
    rw [remove_eq_empty plotid poc21 height f s (List.getLast?_eq_none_iff.mp hx)]
    exact smap_lookup_erase_ne _ _ _ hg
  | some prev =>
    rw [remove_eq_prev plotid poc21 height f s prev hx]
    exact smap_lookup_insert_ne _ _ _ _ hg

theorem remove_hist_lookup_self_empty (plotid : Nat → Nat) (poc21 : Bool)
    (height : Int) (f : Nat) (s : CRelationView) (hwf : WFState s)
    (hrem : (histOf s f).filter (fun e => decide (e.1 < height)) = []) :
    SMap.lookup
      (CRelationView.removeRelationHistory plotid poc21 height f s).relationsHistoryMap
      f = none := by
  rw [remove_eq_empty plotid poc21 height f s hrem]
  exact smap_lookup_erase_self _ _ hwf.2.2.1

theorem remove_hist_lookup_self_prev (plotid : Nat → Nat) (poc21 : Bool)
    (height : Int) (f : Nat) (s : CRelationView) (prev : Int × Nat)
    (hprev : ((histOf s f).filter (fun e => decide (e.1 < height))).getLast? =
      some prev) :
    SMap.lookup
      (CRelationView.removeRelationHistory plotid poc21 height f s).relationsHistoryMap
      f = some ((histOf s f).filter (fun e => decide (e.1 < height))) := by
  rw [remove_eq_prev plotid poc21 height f s prev hprev]
  exact smap_lookup_insert_self _ _ _

theorem remove_preserves_wf (plotid : Nat → Nat) (poc21 : Bool)
    (height : Int) (f : Nat) (s : CRelationView) (hwf : WFState s) :
    WFState (CRelationView.removeRelationHistory plotid poc21 height f s) := by
  obtain ⟨hw1, hw2, hw3, hw4⟩ := hwf
  cases hx : ((histOf s f).filter (fun e => decide (e.1 < height))).getLast? with
  | none =>
    rw [remove_eq_empty plotid poc21 height f s (List.getLast?_eq_none_iff.mp hx)]
    refine ⟨?_, smap_wf_erase _ _ hw2, smap_wf_erase _ _ hw3, ?_⟩
    · by_cases hp : poc21
      · rw [if_pos hp]; exact hw1
      · rw [if_neg hp]; exact smap_wf_erase _ _ hw1
    · intro e he
      exact hw4 e (List.Sublist.mem he (smap_erase_sublist _ _))
  | some prev =>
    rw [remove_eq_prev plotid poc21 height f s prev hx]
    refine ⟨?_, smap_wf_insert _ _ _ hw2, smap_wf_insert _ _ _ hw3, ?_⟩
    · by_cases hp : poc21
      · rw [if_pos hp]; exact hw1
      · rw [if_neg hp]; exact smap_wf_insert _ _ _ hw1
    · intro e he
      rcases smap_mem_insert _ _ _ _ he with hm | hm
      · exact hw4 e hm
      · rw [hm]
        refine ⟨smap_wf_filter _ _ (histOf_wf s f ⟨hw1, hw2, hw3, hw4⟩), ?_⟩
        intro hnil
        have hnil' : (histOf s f).filter (fun e => decide (e.1 < height)) = [] :=
          hnil
        rw [hnil'] at hx
        simp at hx

theorem remove_preserves_tipapprox (plotid : Nat → Nat) (poc21 : Bool)
    (height : Int) (f : Nat) (s : CRelationView) (hwf : WFState s)
    (hta : TipApprox s) :
    TipApprox (CRelationView.removeRelationHistory plotid poc21 height f s) := by
  intro g
  by_cases hg : g = f
  · subst hg
    cases hx : ((histOf s g).filter (fun e => decide (e.1 < height))).getLast? with
    | none =>
      rw [remove_eq_empty plotid poc21 height g s (List.getLast?_eq_none_iff.mp hx)]
      left
      simp only [histOf, smap_lookup_erase_self _ _ hwf.2.1,
        smap_lookup_erase_self _ _ hwf.2.2.1]
      rfl
    | some prev =>
      rw [remove_eq_prev plotid poc21 height g s prev hx]
      simp only [histOf, smap_lookup_insert_self, Option.getD_some]
      simp only [histOf] at hx
      by_cases hz : prev.2 = nullKeyID
      · right
        exact ⟨⟨prev, hx, hz⟩, by rw [hz]⟩
      · left
        unfold tipOfList
        simp only [hx]
        rw [if_neg hz]
  · have h1 := remove_tip_lookup_ne plotid poc21 height f g s hg
    have h2 := remove_hist_lookup_ne plotid poc21 height f g s hg
    unfold histOf
    rw [h1, h2]
    have := hta g
    simp only [histOf] at this
    exact this

theorem remove_preserves_rtippt (plotid : Nat → Nat)
    (hinj : Function.Injective plotid) (height : Int) (f : Nat)
    (s : CRelationView) (hwf : WFState s) (hr : RtipPt plotid s) :
    RtipPt plotid (CRelationView.removeRelationHistory plotid false height f s) := by
  obtain ⟨hr1, hr2⟩ := hr
  cases hx : ((histOf s f).filter (fun e => decide (e.1 < height))).getLast? with
  | none =>
    rw [remove_eq_empty plotid false height f s (List.getLast?_eq_none_iff.mp hx)]
    rw [if_neg (by simp)]
    constructor
    · intro k
      by_cases hk : k = f
      · subst hk
        rw [smap_lookup_erase_self _ _ hwf.1, smap_lookup_erase_self _ _ hwf.2.1]
        rfl
      · rw [smap_lookup_erase_ne _ _ _ (fun hh => hk (hinj hh)),
          smap_lookup_erase_ne _ _ _ hk]
        exact hr1 k
    · intro q hq
      rw [smap_lookup_erase_ne _ _ _ (fun hh => hq f hh.symm)]
      exact hr2 q hq
  | some prev =>
    rw [remove_eq_prev plotid false height f s prev hx]
    rw [if_neg (by simp)]
    constructor
    · intro k
      by_cases hk : k = f
      · subst hk
        rw [smap_lookup_insert_self, smap_lookup_insert_self]
        rfl
      · rw [smap_lookup_insert_ne _ _ _ _ (fun hh => hk (hinj hh)),
          smap_lookup_insert_ne _ _ _ _ hk]
        exact hr1 k
    · intro q hq
      rw [smap_lookup_insert_ne _ _ _ _ (fun hh => hq f hh.symm)]
      exact hr2 q hq

theorem remove_rtip_const (plotid : Nat → Nat) (height : Int) (f : Nat)
    (s : CRelationView) :
    (CRelationView.removeRelationHistory plotid true height f s).relationTip =
      s.relationTip := by
  cases hx : ((histOf s f).filter (fun e => decide (e.1 < height))).getLast? with
  | none =>
    rw [remove_eq_empty plotid true height f s (List.getLast?_eq_none_iff.mp hx)]
    simp
  | some prev =>
    rw [remove_eq_prev plotid true height f s prev hx]
    simp

theorem foldl_preserves {α β : Type} (g : β → α → β) (P : β → Prop)
    (hstep : ∀ a b, P b → P (g b a)) :
    ∀ (L : List α) (b : β), P b → P (L.foldl g b) := by
  intro L
  induction L with
  | nil => intro b hb; exact hb
  | cons a T ih =>
    intro b hb
    exact ih (g b a) (hstep a b hb)

theorem disconnect_preserves_inv (plotid : Nat → Nat)
    (hinj : Function.Injective plotid) (poc21 : Bool) (height : Int)
    (blk : List CTx) (Y : CRelationView) (hinv : LedgerInv plotid poc21 Y) :
    LedgerInv plotid poc21
      (CRelationView.DisconnectBlock plotid poc21 height blk Y) := by
  unfold CRelationView.DisconnectBlock
  apply foldl_preserves _ (LedgerInv plotid poc21) _ _ _ hinv
  intro f s hs
  obtain ⟨hwf, hta, hrt⟩ := hs
  refine ⟨remove_preserves_wf _ _ _ _ _ hwf,
    remove_preserves_tipapprox _ _ _ _ _ hwf hta, ?_⟩
  intro hp
  subst hp
  exact remove_preserves_rtippt plotid hinj height f s hwf (hrt rfl)

theorem disconnect_rtip_const (plotid : Nat → Nat) (height : Int)
    (blk : List CTx) (Y : CRelationView) :
    (CRelationView.DisconnectBlock plotid true height blk Y).relationTip =
      Y.relationTip := by
  unfold CRelationView.DisconnectBlock
  exact foldl_preserves
    (fun acc f => CRelationView.removeRelationHistory plotid true height f acc)
    (fun b => b.relationTip = Y.relationTip)
    (fun f s hs => by
      show (CRelationView.removeRelationHistory plotid true height f s).relationTip =
        Y.relationTip
      rw [remove_rtip_const]
      exact hs)
    _ Y rfl

theorem fold_remove_hist_not_mem (plotid : Nat → Nat) (poc21 : Bool)
    (height : Int) (L : List Nat) :
    ∀ (s : CRelationView) (f : Nat), f ∉ L →
    SMap.lookup
      (L.foldl (fun acc g => acc.removeRelationHistory plotid poc21 height g)
        s).relationsHistoryMap f = SMap.lookup s.relationsHistoryMap f := by
  induction L with
  | nil => intro s f _; rfl
  | cons g T ih =>
    intro s f hf
    simp only [List.foldl_cons]
    rw [ih _ f (fun hx => hf (List.mem_cons_of_mem g hx))]
    exact remove_hist_lookup_ne plotid poc21 height g f s
      (fun hx => hf (by rw [hx]; simp))

theorem fold_remove_hist_mem (plotid : Nat → Nat) (poc21 : Bool)
    (height : Int) (L : List Nat) :
    ∀ (s : CRelationView), L.Nodup → WFState s → ∀ f ∈ L,
    SMap.lookup
      (L.foldl (fun acc g => acc.removeRelationHistory plotid poc21 height g)
        s).relationsHistoryMap f =
      (if (histOf s f).filter (fun e => decide (e.1 < height)) = [] then none
       else some ((histOf s f).filter (fun e => decide (e.1 < height)))) := by
  induction L with
  | nil => intro s _ _ f hf; simp at hf
  | cons g T ih =>
    intro s hnd hwf f hf
    simp only [List.foldl_cons]
    rcases List.mem_cons.mp hf with hfg | hfT
    · subst hfg
      have hnotT : f ∉ T := (List.nodup_cons.mp hnd).1
      rw [fold_remove_hist_not_mem plotid poc21 height T _ f hnotT]
      cases hx : ((histOf s f).filter (fun e => decide (e.1 < height))).getLast? with
      | none =>
        have hrem := List.getLast?_eq_none_iff.mp hx
        rw [remove_hist_lookup_self_empty plotid poc21 height f s hwf hrem]
        rw [if_pos hrem]
      | some prev =>
        have hrem : (histOf s f).filter (fun e => decide (e.1 < height)) ≠ [] := by
          intro hz; rw [hz] at hx; simp at hx
        rw [remove_hist_lookup_self_prev plotid poc21 height f s prev hx]
        rw [if_neg hrem]
    · have hfg : f ≠ g := by
        intro hx
        subst hx
        exact (List.nodup_cons.mp hnd).1 hfT
      have hs' : histOf (CRelationView.removeRelationHistory plotid poc21 height g s) f
          = histOf s f := by
        unfold histOf
        rw [remove_hist_lookup_ne plotid poc21 height g f s hfg]
      rw [ih _ (List.nodup_cons.mp hnd).2
        (remove_preserves_wf plotid poc21 height g s hwf) f hfT, hs']

theorem mem_touched_iff (height : Int) (Y : CRelationView)
    (hwf : SMap.WF Y.relationsHistoryMap) (f : Nat) :
    f ∈ ((Y.relationsHistoryMap.filter
        (fun e => (SMap.lookup e.2 height).isSome)).map Prod.fst) ↔
      ∃ l, SMap.lookup Y.relationsHistoryMap f = some l ∧
        (SMap.lookup l height).isSome := by
  constructor
  · intro h
    obtain ⟨e, he, hef⟩ := List.mem_map.mp h
    have hmem := List.mem_of_mem_filter he
    have hpred := List.of_mem_filter he
    refine ⟨e.2, ?_, by simpa using hpred⟩
    rw [← hef]
    exact smap_lookup_of_mem _ _ _ hwf (by cases e; exact hmem)
  · intro ⟨l, hl, hsome⟩
    apply List.mem_map.mpr
    refine ⟨(f, l), ?_, rfl⟩
    apply List.mem_filter.mpr
    exact ⟨smap_mem_of_lookup _ _ _ hl, by simpa using hsome⟩

theorem touched_nodup (height : Int) (Y : CRelationView)
    (hwf : SMap.WF Y.relationsHistoryMap) :
    ((Y.relationsHistoryMap.filter
      (fun e => (SMap.lookup e.2 height).isSome)).map Prod.fst).Nodup := by
  apply List.Pairwise.imp (fun h => ne_of_lt h)
  apply List.pairwise_map.mpr
  exact List.Pairwise.sublist (List.filter_sublist _) hwf

theorem lastActOn_concat_bind (acts : List (Nat × CAction)) (tx g t f : Nat) :
    lastActOn (acts ++ [(tx, CAction.bind g t)]) f =
      if g = f then some (true, t) else lastActOn acts f := by
  unfold lastActOn
  rw [List.foldl_append]
  rfl

theorem lastActOn_concat_unbind (acts : List (Nat × CAction)) (tx g f : Nat) :
    lastActOn (acts ++ [(tx, CAction.unbind g)]) f =
      if g = f then some (false, nullKeyID) else lastActOn acts f := by
  unfold lastActOn
  rw [List.foldl_append]
  rfl

theorem lastActOn_concat_nil (acts : List (Nat × CAction)) (tx f : Nat) :
    lastActOn (acts ++ [(tx, CAction.nil)]) f = lastActOn acts f := by
  unfold lastActOn
  rw [List.foldl_append]
  rfl

theorem cba_concat (plotid : Nat → Nat) (poc21 : Bool) (h : Int)
    (acts : List (Nat × CAction)) (p : Nat × CAction) (s : CRelationView) :
    ConnectBlockActions plotid poc21 h (acts ++ [p]) s =
      (CRelationView.AcceptAction plotid poc21 true h p.1 p.2
        (ConnectBlockActions plotid poc21 h acts s)).2.1 := by
  unfold ConnectBlockActions
  rw [List.foldl_append]
  rfl

theorem below_imp_beloweq (s : CRelationView) (h : Int)
    (hb : HeightsBelow s h) : HeightsBelowEq s h :=
  fun e he x hx => le_of_lt (hb e he x hx)

theorem beloweq_imp_below_of_lt (s : CRelationView) (h1 h2 : Int)
    (hlt : h1 < h2) (hb : HeightsBelowEq s h1) : HeightsBelow s h2 :=
  fun e he x hx => lt_of_le_of_lt (hb e he x hx) hlt

/-- The connect fold preserves the ledger invariant and keeps every history
height at most the block height. -/
theorem cba_preserves_inv (plotid : Nat → Nat)
    (hinj : Function.Injective plotid) (poc21 : Bool) (h : Int)
    (acts : List (Nat × CAction)) (s : CRelationView)
    (hinv : LedgerInv plotid poc21 s) (hbe : HeightsBelowEq s h) :
    LedgerInv plotid poc21 (ConnectBlockActions plotid poc21 h acts s) ∧
      HeightsBelowEq (ConnectBlockActions plotid poc21 h acts s) h := by
  unfold ConnectBlockActions
  exact foldl_preserves
    (fun acc p =>
      (CRelationView.AcceptAction plotid poc21 true h p.1 p.2 acc).2.1)
    (fun b => LedgerInv plotid poc21 b ∧ HeightsBelowEq b h)
    (fun p b hb => accept_preserves_inv plotid hinj poc21 h p.1 p.2 b hb.1 hb.2)
    acts s ⟨hinv, hbe⟩

theorem filter_eq_self_of_below (l : List (Int × Nat)) (h : Int)
    (hb : ∀ x ∈ l, x.1 < h) :
    l.filter (fun e => decide (e.1 < h)) = l := by
  apply List.filter_eq_self.mpr
  intro a ha
  simpa using hb a ha

/-- Per-identity history after connecting one block at height `h` over a
state whose histories lie strictly below `h`: untouched identities keep
their entry, touched identities get their pruned-at-`h` history (which is
the whole old history) extended by the last action's value. -/
theorem cba_hist_char (plotid : Nat → Nat) (poc21 : Bool) (h : Int)
    (acts : List (Nat × CAction)) (s : CRelationView) (hwf : WFState s)
    (hbelow : HeightsBelow s h) (f : Nat) :
    SMap.lookup
      (ConnectBlockActions plotid poc21 h acts s).relationsHistoryMap f =
      match lastActOn acts f with
      | none => SMap.lookup s.relationsHistoryMap f
      | some pr =>
        some ((histOf s f).filter (fun e => decide (e.1 < h)) ++ [(h, pr.2)]) := by
  induction acts using List.reverseRecOn with
  | nil => rfl
  | append_singleton as p ih =>
    obtain ⟨tx, a⟩ := p
    rw [cba_concat]
    cases a with
    | nil =>
      rw [lastActOn_concat_nil]
      exact ih
    | bind g t =>
      rw [lastActOn_concat_bind, accept_bind_eq]
      by_cases hgf : g = f
      · subst hgf
        rw [if_pos rfl]
        show SMap.lookup (SMap.insert
          (ConnectBlockActions plotid poc21 h as s).relationsHistoryMap g
          (SMap.insert (histOf (ConnectBlockActions plotid poc21 h as s) g) h t))
          g = _
        rw [smap_lookup_insert_self]
        have hhist : histOf (ConnectBlockActions plotid poc21 h as s) g =
            match lastActOn as g with
            | none => histOf s g
            | some pr =>
              (histOf s g).filter (fun e => decide (e.1 < h)) ++ [(h, pr.2)] := by
          unfold histOf
          rw [ih]
          cases lastActOn as g <;> rfl
        cases hla : lastActOn as g with
        | none =>
          rw [hla] at hhist
          simp only at hhist
          rw [hhist]
          rw [smap_insert_top _ _ _ (histOf_wf s g hwf)
            (fun x hx => le_of_lt (histOf_lt_of_below s h hbelow g x hx))]
        | some pr =>
          rw [hla] at hhist
          simp only at hhist
          rw [hhist]
          have hfx : ∀ x ∈ (histOf s g).filter (fun e => decide (e.1 < h)),
              x.1 < h := by
            intro x hx
            simpa using (List.mem_filter.mp hx).2
          rw [smap_insert_top _ _ _
            (smap_wf_append_last _ _ _
              (smap_wf_filter _ _ (histOf_wf s g hwf)) hfx)
            (by
              intro x hx
              rcases List.mem_append.mp hx with hm | hm
              · exact le_of_lt (hfx x hm)
              · simp only [List.mem_singleton] at hm
                rw [hm])]
          rw [smap_filter_append_last_lt _ _ _ _ (lt_irrefl h)]
          rw [filter_lt_idem]
      · rw [if_neg hgf]
        show SMap.lookup (SMap.insert
          (ConnectBlockActions plotid poc21 h as s).relationsHistoryMap g
          (SMap.insert (histOf (ConnectBlockActions plotid poc21 h as s) g) h t))
          f = _
        rw [smap_lookup_insert_ne _ _ _ _ (fun hx => hgf hx.symm)]
        exact ih
    | unbind g =>
      rw [lastActOn_concat_unbind, accept_unbind_eq]
      by_cases hgf : g = f
      · subst hgf
        rw [if_pos rfl]
        show SMap.lookup (SMap.insert
          (ConnectBlockActions plotid poc21 h as s).relationsHistoryMap g
          (SMap.insert (histOf (ConnectBlockActions plotid poc21 h as s) g) h
            nullKeyID)) g = _
        rw [smap_lookup_insert_self]
        have hhist : histOf (ConnectBlockActions plotid poc21 h as s) g =
            match lastActOn as g with
            | none => histOf s g
            | some pr =>
              (histOf s g).filter (fun e => decide (e.1 < h)) ++ [(h, pr.2)] := by
          unfold histOf
          rw [ih]
          cases lastActOn as g <;> rfl
        cases hla : lastActOn as g with
        | none =>
          rw [hla] at hhist
          simp only at hhist
          rw [hhist]
          rw [smap_insert_top _ _ _ (histOf_wf s g hwf)
            (fun x hx => le_of_lt (histOf_lt_of_below s h hbelow g x hx))]
        | some pr =>
          rw [hla] at hhist
          simp only at hhist
          rw [hhist]
          have hfx : ∀ x ∈ (histOf s g).filter (fun e => decide (e.1 < h)),
              x.1 < h := by
            intro x hx
            simpa using (List.mem_filter.mp hx).2
          rw [smap_insert_top _ _ _
            (smap_wf_append_last _ _ _
              (smap_wf_filter _ _ (histOf_wf s g hwf)) hfx)
            (by
              intro x hx
              rcases List.mem_append.mp hx with hm | hm
              · exact le_of_lt (hfx x hm)
              · simp only [List.mem_singleton] at hm
                rw [hm])]
          rw [smap_filter_append_last_lt _ _ _ _ (lt_irrefl h)]
          rw [filter_lt_idem]
      · rw [if_neg hgf]
        show SMap.lookup (SMap.insert
          (ConnectBlockActions plotid poc21 h as s).relationsHistoryMap g
          (SMap.insert (histOf (ConnectBlockActions plotid poc21 h as s) g) h
            nullKeyID)) f = _
        rw [smap_lookup_insert_ne _ _ _ _ (fun hx => hgf hx.symm)]
        exact ih

theorem smap_lookup_eq_none_of_ne {K V : Type} [DecidableEq K]
    (l : List (K × V)) (k : K) (hne : ∀ e ∈ l, e.1 ≠ k) :
    SMap.lookup l k = none := by
  induction l with
  | nil => rfl
  | cons e t ih =>
    simp only [SMap.lookup]
    rw [if_neg (hne e (by simp))]
    exact ih (fun x hx => hne x (List.mem_cons_of_mem e hx))

theorem fold_preserves_wfstate (plotid : Nat → Nat) (poc21 : Bool)
    (height : Int) (L : List Nat) (s : CRelationView) (hwf : WFState s) :
    WFState (L.foldl
      (fun acc g => acc.removeRelationHistory plotid poc21 height g) s) :=
  foldl_preserves _ WFState
    (fun g b hb => remove_preserves_wf plotid poc21 height g b hb) L s hwf

/-- Disconnecting a block at height `h` from any state whose history map
equals the one produced by connecting that block over a base state lying
strictly below `h` restores the base state's history map exactly. -/
theorem disconnect_hist_restores (plotid : Nat → Nat) (poc21 : Bool)
    (h : Int) (acts : List (Nat × CAction)) (blk : List CTx)
    (S' Y : CRelationView) (hS'wf : WFState S') (hbelow : HeightsBelow S' h)
    (hYwf : WFState Y)
    (hYh : Y.relationsHistoryMap =
      (ConnectBlockActions plotid poc21 h acts S').relationsHistoryMap) :
    (CRelationView.DisconnectBlock plotid poc21 h blk Y).relationsHistoryMap =
      S'.relationsHistoryMap := by
  have hYlookup : ∀ f, SMap.lookup Y.relationsHistoryMap f =
      match lastActOn acts f with
      | none => SMap.lookup S'.relationsHistoryMap f
      | some pr => some (histOf S' f ++ [(h, pr.2)]) := by
    intro f
    rw [hYh, cba_hist_char plotid poc21 h acts S' hS'wf hbelow f]
    cases lastActOn acts f with
    | none => rfl
    | some pr =>
      simp only
      rw [filter_eq_self_of_below _ _ (histOf_lt_of_below S' h hbelow f)]
  unfold CRelationView.DisconnectBlock
  apply smap_ext
  · exact (fold_preserves_wfstate plotid poc21 h _ Y hYwf).2.2.1
  · exact hS'wf.2.2.1
  · intro f
    by_cases hf : f ∈ ((Y.relationsHistoryMap.filter
        (fun e => (SMap.lookup e.2 h).isSome)).map Prod.fst)
    · -- identity touched by the block
      rw [fold_remove_hist_mem plotid poc21 h _ Y
        (touched_nodup h Y hYwf.2.2.1) hYwf f hf]
      obtain ⟨l, hl, hsome⟩ := (mem_touched_iff h Y hYwf.2.2.1 f).mp hf
      have hla : ∃ pr, lastActOn acts f = some pr := by
        cases hx : lastActOn acts f with
        | some pr => exact ⟨pr, rfl⟩
        | none =>
          exfalso
          have := hYlookup f
          rw [hx] at this
          simp only at this
          rw [hl] at this
          have hlS : (f, l) ∈ S'.relationsHistoryMap :=
            smap_mem_of_lookup _ _ _ this.symm
          have : SMap.lookup l h = none :=
            smap_lookup_eq_none_of_ne l h
              (fun e he => ne_of_lt (hbelow (f, l) hlS e he))
          rw [this] at hsome
          simp at hsome
      obtain ⟨pr, hpr⟩ := hla
      have hYf : histOf Y f = histOf S' f ++ [(h, pr.2)] := by
        have hth := hYlookup f
        rw [hpr] at hth
        simp only at hth
        unfold histOf
        rw [hth]
        rfl
      rw [hYf]
      rw [smap_filter_append_last_lt _ _ _ _ (lt_irrefl h)]
      rw [filter_eq_self_of_below _ _ (histOf_lt_of_below S' h hbelow f)]
      by_cases hemp : histOf S' f = []
      · rw [if_pos hemp]
        exact (hist_lookup_none_of_nil S' f hS'wf hemp).symm
      · rw [if_neg hemp]
        exact (hist_lookup_some_of_ne_nil S' f hemp).symm
    · -- identity untouched by the block
      rw [fold_remove_hist_not_mem plotid poc21 h _ Y f hf]
      have := hYlookup f
      cases hx : lastActOn acts f with
      | none =>
        rw [hx] at this
        exact this
      | some pr =>
        exfalso
        apply hf
        apply (mem_touched_iff h Y hYwf.2.2.1 f).mpr
        rw [hx] at this
        simp only at this
        refine ⟨histOf S' f ++ [(h, pr.2)], this, ?_⟩
        rw [smap_lookup_append]
        rw [smap_lookup_eq_none_of_ne (histOf S' f) h
          (fun e he => ne_of_lt (histOf_lt_of_below S' h hbelow f e he))]
        simp [SMap.lookup]

theorem cba_rtip_const (plotid : Nat → Nat) (h : Int)
    (acts : List (Nat × CAction)) (s : CRelationView) :
    (ConnectBlockActions plotid true h acts s).relationTip = s.relationTip := by
  unfold ConnectBlockActions
  exact foldl_preserves
    (fun acc p => (CRelationView.AcceptAction plotid true true h p.1 p.2 acc).2.1)
    (fun b => b.relationTip = s.relationTip)
    (fun p b hb => by
      show (CRelationView.AcceptAction plotid true true h p.1 p.2 b).2.1.relationTip =
        s.relationTip
      rw [accept_rtip_const_poc21]
      exact hb)
    acts s rfl

/-- Connecting a strictly-increasing sequence of blocks over an invariant
state and disconnecting it in reverse restores the history map exactly and
preserves the invariant (the tip maps are recovered from the invariant at
the top level). -/
theorem seq_restore (plotid : Nat → Nat) (hinj : Function.Injective plotid)
    (poc21 : Bool) :
    ∀ (bs : List (Int × List (Nat × CAction))) (S : CRelationView),
    LedgerInv plotid poc21 S → (∀ p ∈ bs, HeightsBelow S p.1) →
    (bs.map Prod.fst).Pairwise (· < ·) →
    (DisconnectSeqRev plotid poc21 bs
        (ConnectSeq plotid poc21 bs S)).relationsHistoryMap =
      S.relationsHistoryMap ∧
    LedgerInv plotid poc21
      (DisconnectSeqRev plotid poc21 bs (ConnectSeq plotid poc21 bs S)) ∧
    (poc21 = true →
      (DisconnectSeqRev plotid poc21 bs
        (ConnectSeq plotid poc21 bs S)).relationTip = S.relationTip) := by
  intro bs
  induction bs with
  | nil => intro S hinv _ _; exact ⟨rfl, hinv, fun _ => rfl⟩
  | cons b rest ih =>
    intro S hinv hbel hinc
    obtain ⟨h1, as1⟩ := b
    have hcseq : ConnectSeq plotid poc21 ((h1, as1) :: rest) S =
        ConnectSeq plotid poc21 rest
          (ConnectBlockActions plotid poc21 h1 as1 S) := rfl
    have hdrev : ∀ X, DisconnectSeqRev plotid poc21 ((h1, as1) :: rest) X =
        CRelationView.DisconnectBlock plotid poc21 h1 []
          (DisconnectSeqRev plotid poc21 rest X) := by
      intro X
      unfold DisconnectSeqRev
      rw [List.reverse_cons, List.foldl_append]
      rfl
    have hS2 := cba_preserves_inv plotid hinj poc21 h1 as1 S hinv
      (below_imp_beloweq S h1 (hbel (h1, as1) (by simp)))
    have hinc' : (h1 :: rest.map Prod.fst).Pairwise (· < ·) := hinc
    have hpc := List.pairwise_cons.mp hinc'
    have hrestlt : ∀ p ∈ rest, h1 < p.1 :=
      fun p hp => hpc.1 p.1 (List.mem_map.mpr ⟨p, hp, rfl⟩)
    have hrestbel : ∀ p ∈ rest,
        HeightsBelow (ConnectBlockActions plotid poc21 h1 as1 S) p.1 :=
      fun p hp => beloweq_imp_below_of_lt _ _ _ (hrestlt p hp) hS2.2
    have hrestinc : (rest.map Prod.fst).Pairwise (· < ·) := hpc.2
    obtain ⟨ihh, ihinv, ihrt⟩ := ih
      (ConnectBlockActions plotid poc21 h1 as1 S) hS2.1 hrestbel hrestinc
    rw [hcseq, hdrev]
    refine ⟨?_, ?_, ?_⟩
    · exact disconnect_hist_restores plotid poc21 h1 as1 [] S _ hinv.1
        (hbel (h1, as1) (by simp)) ihinv.1 ihh
    · exact disconnect_preserves_inv plotid hinj poc21 h1 [] _ ihinv
    · intro hp
      subst hp
      rw [disconnect_rtip_const, ihrt rfl, cba_rtip_const]

theorem tipExact_pointwise (s : CRelationView) (hwf : WFState s)
    (hte : TipExact s) :
    ∀ f, SMap.lookup s.relationKeyIDTip f = tipOfList (histOf s f) := by
  intro f
  cases hx : SMap.lookup s.relationKeyIDTip f with
  | some v =>
    exact (hte.1 (f, v) (smap_mem_of_lookup _ _ _ hx)).symm
  | none =>
    cases hl : SMap.lookup s.relationsHistoryMap f with
    | some l =>
      have := hte.2 (f, l) (smap_mem_of_lookup _ _ _ hl)
      rw [hx] at this
      unfold histOf
      rw [hl]
      exact this
    | none =>
      unfold histOf
      rw [hl]
      rfl

theorem tipExact_imp_tipApprox (s : CRelationView) (hwf : WFState s)
    (hte : TipExact s) : TipApprox s :=
  fun f => Or.inl (tipExact_pointwise s hwf hte f)

theorem rtipOkB_imp_rtipPt (plotid : Nat → Nat)
    (hinj : Function.Injective plotid) (s : CRelationView) (hwf : WFState s)
    (hok : RtipOkB plotid s) : RtipPt plotid s := by
  constructor
  · intro k
    cases hx : SMap.lookup s.relationKeyIDTip k with
    | some v =>
      rw [hok.1 (k, v) (smap_mem_of_lookup _ _ _ hx)]
      rfl
    | none =>
      cases hy : SMap.lookup s.relationTip (plotid k) with
      | none => rfl
      | some w =>
        exfalso
        obtain ⟨t, htm, ht1, _⟩ := hok.2 (plotid k, w) (smap_mem_of_lookup _ _ _ hy)
        have htk : t.1 = k := hinj ht1
        have hlk := smap_lookup_of_mem s.relationKeyIDTip t.1 t.2 hwf.2.1
          (by cases t; exact htm)
        rw [htk, hx] at hlk
        exact absurd hlk (by simp)
  · intro q hq
    cases hy : SMap.lookup s.relationTip q with
    | none => rfl
    | some w =>
      exfalso
      obtain ⟨t, _, ht1, _⟩ := hok.2 (q, w) (smap_mem_of_lookup _ _ _ hy)
      exact hq t.1 ht1

theorem noTopUnbind_pointwise (s : CRelationView) (hnt : NoTopUnbind s) :
    ∀ f x, (histOf s f).getLast? = some x → x.2 ≠ nullKeyID := by
  intro f x hx
  unfold histOf at hx
  cases hl : SMap.lookup s.relationsHistoryMap f with
  | none =>
    rw [hl] at hx
    simp at hx
  | some l =>
    rw [hl] at hx
    simp only [Option.getD_some] at hx
    have := hnt (f, l) (smap_mem_of_lookup _ _ _ hl)
    simp only [hx, Option.getD_some] at this
    exact this

theorem crelationview_ext (a b : CRelationView)
    (h1 : a.relationTip = b.relationTip)
    (h2 : a.relationKeyIDTip = b.relationKeyIDTip)
    (h3 : a.relationsHistoryMap = b.relationsHistoryMap) : a = b := by
  cases a
  cases b
  simp only at h1 h2 h3
  rw [h1, h2, h3]

/-- Claim C1 as amended: connect/disconnect is an inverse pair for
well-formed, consistent starting states and fresh strictly-increasing
heights — for any injective plot-id derivation, any mode, and any starting
state whose maps are sorted, whose tips satisfy I1 exactly (and I3 in
legacy mode), whose histories are nonempty with no unbind marker on top,
and whose history heights all lie strictly below the blocks' strictly
increasing heights, connecting blocks B1..Bn and then disconnecting Bn..B1
restores `relationTip`, `relationKeyIDTip` and `relationsHistoryMap` to
structural equality with the starting state. -/
theorem c1_connect_disconnect_inverse (plotid : Nat → Nat)
    (hinj : Function.Injective plotid) (poc21 : Bool) (S : CRelationView)
    (bs : List (Int × List (Nat × CAction)))
    (hwf : WFState S) (hte : TipExact S) (hnt : NoTopUnbind S)
    (hrt : poc21 = false → RtipOkB plotid S)
    (hinc : (bs.map Prod.fst).Pairwise (· < ·))
    (hbel : ∀ p ∈ bs, HeightsBelow S p.1) :
    DisconnectSeqRev plotid poc21 bs (ConnectSeq plotid poc21 bs S) = S := by
  have hinv : LedgerInv plotid poc21 S :=
    ⟨hwf, tipExact_imp_tipApprox S hwf hte,
      fun hp => rtipOkB_imp_rtipPt plotid hinj S hwf (hrt hp)⟩
  obtain ⟨hhist, hinvX, hrtipX⟩ :=
    seq_restore plotid hinj poc21 bs S hinv hbel hinc
  have hhistOf : ∀ f,
      histOf (DisconnectSeqRev plotid poc21 bs (ConnectSeq plotid poc21 bs S)) f =
        histOf S f := by
    intro f
    unfold histOf
    rw [hhist]
  have htip : (DisconnectSeqRev plotid poc21 bs
      (ConnectSeq plotid poc21 bs S)).relationKeyIDTip = S.relationKeyIDTip := by
    apply smap_ext _ _ hinvX.1.2.1 hwf.2.1
    intro f
    rcases hinvX.2.1 f with hl | hr
    · rw [hl, hhistOf f, ← tipExact_pointwise S hwf hte f]
    · exfalso
      obtain ⟨⟨x, hx1, hx2⟩, _⟩ := hr
      rw [hhistOf f] at hx1
      exact noTopUnbind_pointwise S hnt f x hx1 hx2
  have hrtip : (DisconnectSeqRev plotid poc21 bs
      (ConnectSeq plotid poc21 bs S)).relationTip = S.relationTip := by
    cases poc21 with
    | true => exact hrtipX rfl
    | false =>
      have hX := hinvX.2.2 rfl
      have hS := rtipOkB_imp_rtipPt plotid hinj S hwf (hrt rfl)
      apply smap_ext _ _ hinvX.1.1 hwf.1
      intro q
      by_cases hq : ∃ k, plotid k = q
      · obtain ⟨k, hk⟩ := hq
        rw [← hk, hX.1 k, hS.1 k, htip]
      · have hq' : ∀ k, plotid k ≠ q := fun k hk => hq ⟨k, hk⟩
        rw [hX.2 q hq', hS.2 q hq']
  exact crelationview_ext _ _ hrtip htip hhist

/-- Witness for C1 (amended) at concrete inputs: a bind block then an
unbind block connected at heights 1 and 2 over the empty ledger, then
disconnected in reverse, restore the empty ledger. -/
theorem c1_connect_disconnect_inverse_witness :
    DisconnectSeqRev (fun n => n) false
        [(1, [(1, CAction.bind 5 6)]), (2, [(2, CAction.unbind 5)])]
        (ConnectSeq (fun n => n) false
          [(1, [(1, CAction.bind 5 6)]), (2, [(2, CAction.unbind 5)])]
          ⟨[], [], []⟩) = ⟨[], [], []⟩ :=
  c1_connect_disconnect_inverse (fun n => n) (fun a b h => h) false
    ⟨[], [], []⟩ [(1, [(1, CAction.bind 5 6)]), (2, [(2, CAction.unbind 5)])]
    (by decide) (by decide) (by decide) (fun _ => by decide) (by decide)
    (by decide)

/-- Counterexample to C1 as stated: the starting state with history
`10 ↦ {1 ↦ 20, 2 ↦ unbind}` and no tip entry satisfies invariant I1 and is
reachable (bind at height 1, unbind at height 2 from the empty ledger), the
single connected block sits at the fresh height 3 — yet disconnecting it
leaves a tip entry `10 ↦ CKeyID()` where the starting state had none, so
the claimed structural restoration for every starting ledger state fails. -/
theorem c1_counterexample_unbind_top :
    DisconnectSeqRev (fun n => n) true [(3, [(7, CAction.bind 10 30)])]
      (ConnectSeq (fun n => n) true [(3, [(7, CAction.bind 10 30)])]
        ⟨[], [], [(10, [(1, 20), (2, nullKeyID)])]⟩) ≠
      ⟨[], [], [(10, [(1, 20), (2, nullKeyID)])]⟩ := by decide
